import Mathlib

namespace Hydra

/-- JS scalar values appearing in flat rows. `vUndef` models JavaScript `undefined`
(the value of a missing property). -/
inductive Value where
  | vNull
  | vUndef
  | vStr (s : String)
  | vInt (n : Int)
  | vBool (b : Bool)
deriving DecidableEq, Repr

/-- JS truthiness of a scalar (used by `if (!pkValue) continue` in groupRowsByPK). -/
def Value.truthy : Value → Bool
  | .vNull => false
  | .vUndef => false
  | .vStr s => decide (s ≠ "")
  | .vInt n => decide (n ≠ 0)
  | .vBool b => b

/-- JS loose `x == null` (true exactly for `null` and `undefined`). -/
def Value.isNullish : Value → Bool
  | .vNull => true
  | .vUndef => true
  | _ => false

/-- A flat row: a string-keyed record of scalars in JS property order; keys are unique. -/
abbrev Row := List (String × Value)

/-- First-match association-list lookup (JS object / Map lookup). -/
def alook {κ α : Type} [DecidableEq κ] : List (κ × α) → κ → Option α
  | [], _ => none
  | (k, v) :: t, key => if k = key then some v else alook t key

/-- Replace the value of every entry whose key is `k` (there is at most one in a
map image), keeping entry positions. -/
def updateEntry {κ α : Type} [DecidableEq κ] : List (κ × α) → κ → α → List (κ × α)
  | [], _, _ => []
  | (k0, v0) :: t, k, v =>
    if k0 = k then (k, v) :: updateEntry t k v else (k0, v0) :: updateEntry t k v

/-- JS property read `row[key]`: `undefined` when the key is absent. -/
def Row.get (r : Row) (key : String) : Value := (alook r key).getD Value.vUndef

/-- JS `key in row` / `Object.prototype.hasOwnProperty.call(row, key)` for the dotted
column keys used by the engine (dotted keys never collide with inherited properties). -/
def Row.hasKey (r : Row) (key : String) : Bool := (alook r key).isSome

/-- `Object.keys(row)`. -/
def Row.keys (r : Row) : List String := r.map Prod.fst

/-- Hydrated output values: scalars, nested objects, arrays. -/
inductive OutVal where
  | prim (v : Value)
  | obj (fields : List (String × OutVal))
  | arr (items : List OutVal)

/-- A hydrated object: string-keyed record in JS property order. -/
abbrev Obj := List (String × OutVal)

/-- JS property assignment `o[k] = v`: overwrites in place when the key exists
(keeping its position), otherwise appends. Also models `Map.prototype.set`. -/
def mapSet {κ α : Type} [DecidableEq κ] (l : List (κ × α)) (k : κ) (v : α) :
    List (κ × α) :=
  if l.any (fun p => p.1 = k) then updateEntry l k v else l ++ [(k, v)]

/-- JS `a || b` on strings: `b` when `a` is empty (falsy), else `a`. -/
def strOr (a b : String) : String := if a = "" then b else a

/-- The error taxonomy of the engine (the custom Error classes of the source,
carrying the same constructor arguments). -/
inductive HydraError where
  | schemaModelNotFound (modelName : String)
  | nodeModelNotFound (modelName : String)
  | associationNotDeclared (sourceModel targetOrAlias : String)
  | belongsToManyThroughModelMissing (sourceModel childModel : String)
  | schemaAliasMissing (aliasIn nodeModel : String)
  | hasManyMissingAlias (sourceModel targetModel : String)
  | throughModelNotRegistered (throughModel sourceModel targetModel : String)
  | modelNotRegistered (modelName : String)
  | internalCloneModelMissing (modelName : String)
  | prefixedPrimaryKeyNotFound (pfx primaryKey : String)
  | allFlatRowsMustHaveSameProperties
  | modelIsMissingAlias (model : String)
deriving DecidableEq, Repr

/-- An attribute declaration passed to `HydraModel`'s constructor: its name and
whether its declared type is `VIRTUAL` (such entries are dropped by
`filterValidAttributes`). -/
structure AttrDecl where
  name : String
  isVirtual : Bool
deriving DecidableEq, Repr

/-- The observable state of a `HydraModel`.

`attrs` is the list `Object.keys(model.attributes)`. Quirk translated from the
constructor: when the primary key is not among the filtered attributes the source
replaces `_attributes` by a JS `Map` (lines 197-201); `Object.keys` of a `Map` is
empty, so the observable attribute-key list becomes `[]`. -/
structure ModelR where
  name : String
  attrs : List String
  primaryKey : String
deriving DecidableEq, Repr

/-- `filterValidAttributes` (source lines 204-213): keep non-VIRTUAL entries. -/
def filterValidAttributes (attrs : List AttrDecl) : List String :=
  (attrs.filter (fun a => !a.isVirtual)).map AttrDecl.name

/-- The `HydraModel` constructor (source lines 191-202): primary key defaults to the
literal `'code'`; see `ModelR` for the attribute quirk. -/
def mkHydraModel (name : String) (attrs : List AttrDecl) (primaryKey? : Option String) :
    ModelR :=
  let pk := primaryKey?.getD "code"
  let filtered := filterValidAttributes attrs
  { name := name, primaryKey := pk,
    attrs := if pk ∈ filtered then filtered else [] }

inductive AssocType where
  | belongsTo
  | hasOne
  | hasMany
  | belongsToMany
deriving DecidableEq, Repr

/-- The `through` join specification of a `BelongsToMany` association. `modelName`
is `through.model.name` (the wrapped join model; only its name is consumed by the
hydration path). -/
structure Through where
  modelName : String
  alias? : Option String
  foreignKey : String
  otherKey : String
deriving DecidableEq, Repr

/-- A `HydraAssociation` (source lines 9-23). `sourceName`/`sourcePrimaryKey` and
`targetName`/`targetPrimaryKey` are the fields of the wrapped `source`/`target`
models that the hydration path reads (`assoc.source.name`, `assoc.source.primaryKey`,
`assoc.target.name`, `assoc.target.primaryKey`). -/
structure AssocR where
  as : String
  associationType : AssocType
  foreignKey? : Option String
  sourceName : String
  sourcePrimaryKey : String
  sourceKey : String
  targetName : String
  targetPrimaryKey : String
  targetKey : String
  through? : Option Through
deriving DecidableEq, Repr

/-- The read-only registry content consumed by a hydration call: the `_models`
and `_associations` maps (as insertion-ordered association lists) and the two
normalized defaults of `_options`. -/
structure Registry where
  models : List (String × ModelR)
  associations : List (String × List (String × AssocR))
  defaultPrimaryKey : String
  defaultForeignKeySuffix : String
deriving Repr

/-- `new HydraModeler(options)` (source lines 487-494): option normalization with
JS `||` defaults. -/
def Registry.make (defaultPrimaryKey? defaultForeignKeySuffix? : Option String) :
    Registry :=
  { models := [], associations := [],
    defaultPrimaryKey := strOr (defaultPrimaryKey?.getD "") "code",
    defaultForeignKeySuffix := strOr (defaultForeignKeySuffix?.getD "") "Code" }

/-- `getModel(name, { noThrow: true })` restricted to the fields the hydration
path reads. -/
def Registry.getModel? (reg : Registry) (name : String) : Option ModelR :=
  alook reg.models name

/-- `getAssociations` / `ensureAssocMap`: missing entries behave as an empty map. -/
def Registry.getAssociations (reg : Registry) (modelName : String) :
    List (String × AssocR) :=
  (alook reg.associations modelName).getD []

/-- `getAssociation(modelName, associationName)`. -/
def Registry.getAssociation? (reg : Registry) (modelName associationName : String) :
    Option AssocR :=
  alook (reg.getAssociations modelName) associationName

/-- `_addModel` (source lines 548-558): first registration wins; a duplicate name is
silently ignored. -/
def Registry.addModel (reg : Registry) (name : String) (attrs : List AttrDecl)
    (primaryKey? : Option String) : Registry :=
  if (reg.getModel? name).isSome then reg
  else { reg with
    models := mapSet reg.models name (mkHydraModel name attrs primaryKey?),
    associations := mapSet reg.associations name [] }

/-- Options of the `belongsTo` association builder. -/
structure BelongsToOpts where
  as? : Option String := none
  foreignKey? : Option String := none
  sourceKey? : Option String := none
  targetKey? : Option String := none

/-- The `belongsTo` builder (source lines 589-610): key defaults come from the
registry's `defaultPrimaryKey`, the foreign key from the target name plus
`defaultForeignKeySuffix`, and `as` from the target name. -/
def mkBelongsTo (reg : Registry) (sourceModelName targetModelName : String)
    (o : BelongsToOpts) : Except HydraError AssocR :=
  let sourceKey := o.sourceKey?.getD reg.defaultPrimaryKey
  let targetKey := o.targetKey?.getD reg.defaultPrimaryKey
  let as := o.as?.getD targetModelName
  let foreignKey := o.foreignKey?.getD (targetModelName ++ reg.defaultForeignKeySuffix)
  match reg.getModel? sourceModelName with
  | none => .error (.modelNotRegistered sourceModelName)
  | some source =>
    match reg.getModel? targetModelName with
    | none => .error (.modelNotRegistered targetModelName)
    | some target =>
      .ok { as := as, associationType := .belongsTo, foreignKey? := some foreignKey,
            sourceName := source.name, sourcePrimaryKey := source.primaryKey,
            sourceKey := sourceKey,
            targetName := target.name, targetPrimaryKey := target.primaryKey,
            targetKey := targetKey, through? := none }

/-- The association-insertion loop of `associate` (source lines 713-718): the first
association registered under an output name wins; duplicates are silently ignored. -/
def Registry.insertAssociation (reg : Registry) (sourceModelName : String)
    (a : AssocR) : Registry :=
  let m := reg.getAssociations sourceModelName
  if (alook m a.as).isSome then reg
  else { reg with associations := mapSet reg.associations sourceModelName (mapSet m a.as a) }

/-- `associate(source, ab => ab.belongsTo(target, options))`. -/
def Registry.associateBelongsTo (reg : Registry) (sourceModelName targetModelName : String)
    (o : BelongsToOpts) : Except HydraError Registry :=
  match mkBelongsTo reg sourceModelName targetModelName o with
  | .error e => .error e
  | .ok a => .ok (reg.insertAssociation sourceModelName a)

-- ------------ Schema nodes ------------

/-- Post-process transform: `(row, parents) => row` as a pure function. -/
abbrev PostP := Obj → List (String × Obj) → Obj

/-- A `HydrationSchemaNode` (source lines 234-252). -/
inductive SchemaNode where
  | mk (model : String) (alias? : Option String) (postProcess? : Option PostP)
      (children : List SchemaNode)

def SchemaNode.model : SchemaNode → String
  | .mk m _ _ _ => m

def SchemaNode.alias? : SchemaNode → Option String
  | .mk _ a _ _ => a

def SchemaNode.postProcess? : SchemaNode → Option PostP
  | .mk _ _ p _ => p

def SchemaNode.children : SchemaNode → List SchemaNode
  | .mk _ _ _ c => c

/-- `Hydrator.alias` (source line 285-287): `schema.alias || schema.model`. -/
def effAlias (n : SchemaNode) : String := strOr ((n.alias?).getD "") n.model

mutual

/-- All nodes of a schema tree in pre-order (the traversal order of the alias
validator). -/
def SchemaNode.nodesOf : SchemaNode → List SchemaNode
  | .mk m a p children => .mk m a p children :: nodesOfList children

def nodesOfList : List SchemaNode → List SchemaNode
  | [] => []
  | c :: cs => c.nodesOf ++ nodesOfList cs

end

-- ------------ Row grouping ------------

/-- One step of the grouping loops: append `r` to the group of key `k` (keeping the
group's position) or open a new group at the end; JS `Map` insertion-order semantics
of `map.set(pkValue, group)`. -/
def mapInsertGroup (m : List (Value × List Row)) (k : Value) (r : Row) :
    List (Value × List Row) :=
  if m.any (fun p => p.1 = k) then updateEntry m k ((alook m k).getD [] ++ [r])
  else m ++ [(k, [r])]

/-- The shared shape of the two grouping loops of the source: walk the rows in
order, and for each row whose column value passes `guard`, insert it into the
group of that value. `groupRowsByPK` (lines 305-311) uses `guard = Value.truthy`
(`if (!pkValue) continue`); the `BelongsToMany` branch (lines 396-402) admits
every filtered row (`guard = fun _ => true`). -/
def mapGroupFold (guard : Value → Bool) (col : String) :
    List Row → List (Value × List Row) → List (Value × List Row)
  | [], acc => acc
  | r :: rest, acc =>
    let v := r.get col
    if guard v then mapGroupFold guard col rest (mapInsertGroup acc v r)
    else mapGroupFold guard col rest acc

/-- `Hydrator.groupRowsByPK` (source lines 289-313). Only the model's `name` and
`primaryKey` are read from the model argument. The identity-column presence check
samples only the first row. -/
def groupRowsByPK (rows : List Row) (modelName primaryKey aliasStr : String) :
    Except HydraError (List (Value × List Row)) :=
  if aliasStr = "" then .error (.modelIsMissingAlias modelName)
  else
    match rows with
    | [] => .ok []
    | first :: _ =>
      let primaryKeyName := aliasStr ++ "." ++ primaryKey
      if first.hasKey primaryKeyName then
        .ok (mapGroupFold Value.truthy primaryKeyName rows [])
      else .error (.prefixedPrimaryKeyNotFound aliasStr primaryKey)

-- ------------ Alias validation ------------

/-- `key.split('.')[0]`: the characters of `key` before its first `'.'` (the whole
key when it has none; `""` stays `""`). -/
def firstDotSegment (s : String) : String := ⟨s.data.takeWhile (fun c => c ≠ '.')⟩

/-- JS `key.startsWith(p)`, on the underlying character lists. -/
def strIsPrefixOf (p s : String) : Bool := p.data.isPrefixOf s.data

/-- The column-prefix list of a row: `key.split('.')[0]` for each key (source
lines 451-455; the source collects them into a `Set`, used only for membership). -/
def rowPfxList (r : Row) : List String :=
  r.keys.map firstDotSegment

mutual

/-- The recursive `checkNode` closure of `checkAllSchemaAliasesPresent` (source
lines 456-462): pre-order walk failing on the first effective alias that is not a column
prefix of the sampled row. -/
def checkNodeAliases (pfxs : List String) : SchemaNode → Except HydraError Unit
  | .mk model alias? _ children =>
    let a := strOr (alias?.getD "") model
    if pfxs.contains a then checkNodesAliases pfxs children
    else .error (.schemaAliasMissing a model)

def checkNodesAliases (pfxs : List String) : List SchemaNode → Except HydraError Unit
  | [] => .ok ()
  | c :: cs =>
    match checkNodeAliases pfxs c with
    | .error e => .error e
    | .ok _ => checkNodesAliases pfxs cs

end

/-- `Hydrator.checkAllSchemaAliasesPresent` (source lines 443-465): skipped
entirely for empty input; otherwise validates against the first row's prefixes. -/
def checkAllSchemaAliasesPresent (schema : SchemaNode) (flatRows : List Row) :
    Except HydraError Unit :=
  match flatRows with
  | [] => .ok ()
  | row :: _ => checkNodeAliases (rowPfxList row) schema

-- ------------ Recursive tree builder ------------

/-- `Array.prototype.map` over row groups with JS exception propagation: the
first thrown error aborts the whole traversal. -/
def exceptMapM {ee α β : Type} (f : α → Except ee β) : List α → Except ee (List β)
  | [] => .ok []
  | a :: t =>
    match f a with
    | .error e => .error e
    | .ok b =>
      match exceptMapM f t with
      | .error e => .error e
      | .ok bs => .ok (b :: bs)

/-- The row filter of the `BelongsToMany` branch (source lines 385-394): keep rows
that belong to this parent via the join's parent foreign key, have a non-nullish
child target-key value, and whose join child-foreign-key value is nullish or equal
to that target-key value. -/
def btmFilter (rows : List Row) (joinAlias joinToParentFK joinToChildFK childAlias
    childTargetKey : String) (parentPkValue : Value) : List Row :=
  rows.filter (fun r =>
    if r.get (joinAlias ++ "." ++ joinToParentFK) ≠ parentPkValue then false
    else
      let childPk := r.get (childAlias ++ "." ++ childTargetKey)
      if childPk.isNullish then false
      else
        let joinOther := r.get (joinAlias ++ "." ++ joinToChildFK)
        joinOther.isNullish || joinOther == childPk)

/-- The decision the child loop of `hydrateModelRecursive` takes for one child
node (source lines 347-427), before any recursive call. -/
inductive ChildPlan where
  | skip
  | err (e : HydraError)
  | many (outputKey : String) (groups : List (List Row))
  | one (outputKey : String) (group : List Row)
  | oneAbsent

/-- The per-child, non-recursive part of the child loop of
`hydrateModelRecursive` (source lines 347-427): the `hasKeys` skip, association
resolution, output-key computation, and the per-association-type grouping. `row`
is the representative first row, `aliasStr` the current node's effective alias. -/
def planChild (reg : Registry) (model : ModelR) (aliasStr : String) (row : Row)
    (rows : List Row) (child : SchemaNode) : ChildPlan :=
  let childAlias := effAlias child
  let hasKeys := rows.any (fun r => r.keys.any (fun k => strIsPrefixOf (childAlias ++ ".") k))
  if !hasKeys then .skip
  else
    let assocKey := strOr ((child.alias?).getD "") child.model
    match reg.getAssociation? model.name assocKey with
    | none => .err (.associationNotDeclared model.name assocKey)
    | some assoc =>
      let outputKey :=
        match child.alias? with
        | none => assoc.as
        | some _ => childAlias
      match assoc.associationType with
      | .belongsToMany =>
        match assoc.through? with
        | none => .err (.belongsToManyThroughModelMissing model.name child.model)
        | some thr =>
          let parentSourceKey := strOr assoc.sourceKey assoc.sourcePrimaryKey
          let childTargetKey := strOr assoc.targetKey assoc.targetPrimaryKey
          let parentPkValue := row.get (aliasStr ++ "." ++ parentSourceKey)
          let joinAlias := thr.alias?.getD thr.modelName
          let joinToParentFK := strOr thr.foreignKey
            (assoc.sourceName ++ reg.defaultForeignKeySuffix)
          let joinToChildFK := strOr thr.otherKey
            (assoc.targetName ++ reg.defaultForeignKeySuffix)
          let relevantRows := btmFilter rows joinAlias joinToParentFK joinToChildFK
            childAlias childTargetKey parentPkValue
          let grouped := mapGroupFold (fun _ => true)
            (childAlias ++ "." ++ childTargetKey) relevantRows []
          .many outputKey (grouped.map (fun p => p.2))
      | ty =>
        match groupRowsByPK rows assoc.targetName assoc.targetPrimaryKey childAlias with
        | .error e => .err e
        | .ok grouped =>
          match ty with
          | .hasMany => .many outputKey (grouped.map (fun p => p.2))
          | _ =>
            match grouped with
            | [] => .oneAbsent
            | (_, g) :: _ => .one outputKey g

mutual

/-- `Hydrator.hydrateModelRecursive` (source lines 315-439): resolve the model,
project the attributes of the representative first row, process the children in
declared order, then apply `postProcess` with the strict parents snapshot. An
empty row group returns `{}` before any child or post-processing. -/
def hydrateModelRecursive (reg : Registry) (node : SchemaNode) (rows : List Row)
    (parentsIn : List (String × Obj)) : Except HydraError Obj :=
  match node with
  | .mk nodeModel nodeAlias? pp? children =>
    match reg.getModel? nodeModel with
    | none => .error (.nodeModelNotFound nodeModel)
    | some model =>
      let aliasStr := strOr (nodeAlias?.getD "") nodeModel
      match rows with
      | [] => .ok []
      | row :: _ =>
        let base : Obj := model.attrs.foldl (fun acc attr =>
          let key := aliasStr ++ "." ++ attr
          if row.hasKey key then mapSet acc attr (.prim (row.get key)) else acc) []
        match hydrateChildren reg model aliasStr row rows parentsIn children base with
        | .error e => .error e
        | .ok result =>
          let parentsStrict := mapSet parentsIn aliasStr result
          .ok (match pp? with
               | some pp => pp result parentsStrict
               | none => result)

/-- The child loop of `hydrateModelRecursive` (source lines 347-428), threading
the partially-built result object; `newParents` is re-read from the current
result at each recursive call, matching the JS reference semantics of the
`newParents[alias] = result` binding of the source. -/
def hydrateChildren (reg : Registry) (model : ModelR) (aliasStr : String) (row : Row)
    (rows : List Row) (parentsIn : List (String × Obj)) :
    List SchemaNode → Obj → Except HydraError Obj
  | [], result => .ok result
  | child :: rest, result =>
    let newParents := mapSet parentsIn aliasStr result
    match planChild reg model aliasStr row rows child with
    | .skip => hydrateChildren reg model aliasStr row rows parentsIn rest result
    | .err e => .error e
    | .oneAbsent => hydrateChildren reg model aliasStr row rows parentsIn rest result
    | .one outputKey g =>
      match hydrateModelRecursive reg child g newParents with
      | .error e => .error e
      | .ok o =>
        hydrateChildren reg model aliasStr row rows parentsIn rest
          (mapSet result outputKey (.obj o))
    | .many outputKey groups =>
      match exceptMapM (fun g => hydrateModelRecursive reg child g newParents) groups with
      | .error e => .error e
      | .ok objs =>
        hydrateChildren reg model aliasStr row rows parentsIn rest
          (mapSet result outputKey (.arr (objs.map .obj)))

end

/-- `Hydrator.hydrate` (source lines 257-283): alias validation, root model
resolution, root grouping, then one tree-builder invocation per identity group
with an empty parents map. -/
def Hydrator.hydrate (reg : Registry) (flatRows : List Row) (schema : SchemaNode) :
    Except HydraError (List Obj) :=
  match checkAllSchemaAliasesPresent schema flatRows with
  | .error e => .error e
  | .ok _ =>
    let rootAlias := effAlias schema
    match reg.getModel? schema.model with
    | none => .error (.schemaModelNotFound schema.model)
    | some rootModel =>
      match groupRowsByPK flatRows rootModel.name rootModel.primaryKey rootAlias with
      | .error e => .error e
      | .ok groups =>
        exceptMapM (fun g => hydrateModelRecursive reg schema g []) (groups.map (fun p => p.2))

/-- The `Object.keys(row).sort().join('|')` fingerprint used by
`allObjectsHaveSameProperties` (source lines 903-907). JS `.sort()` orders string
keys by a fixed total order; any total order yields the same fingerprint for
equal key sets, and the fingerprints of two concrete rows are computed. -/
def sortedKeysJoined (r : Row) : String :=
  String.intercalate "|" (List.insertionSort (fun a b => a ≤ b) r.keys)

/-- `allObjectsHaveSameProperties` (source lines 903-907): every row's sorted
joined key string must equal the first row's. -/
def allObjectsHaveSameProperties (rows : List Row) : Bool :=
  match rows with
  | [] => true
  | [_] => true
  | first :: rest =>
    (first :: rest).all (fun r => sortedKeysJoined r = sortedKeysJoined first)

/-- `HydraModeler.hydrate` (source lines 894-901): the row-homogeneity check runs
before everything else. -/
def HydraModeler.hydrate (reg : Registry) (flatRows : List Row) (schema : SchemaNode) :
    Except HydraError (List Obj) :=
  if !allObjectsHaveSameProperties flatRows then .error .allFlatRowsMustHaveSameProperties
  else Hydrator.hydrate reg flatRows schema

-- ------------ Spec-side vocabulary ------------

/-- Keep the first occurrence of each element, dropping any element of `seen`
(spec-side helper for stating first-appearance order). -/
def dedupFirstAux {α : Type} [DecidableEq α] (seen : List α) : List α → List α
  | [] => []
  | a :: t => if a ∈ seen then dedupFirstAux seen t else a :: dedupFirstAux (a :: seen) t

/-- The distinct elements of a list in order of first appearance (spec-side
vocabulary: "distinct identities, ordered by first appearance"). -/
def dedupFirst {α : Type} [DecidableEq α] (l : List α) : List α := dedupFirstAux [] l

end Hydra

namespace Hydra.RefW

/-!
A heap-with-references model of the mutable `HydraModeler` object graph, used for
the claims about registration (first-wins) and cloning (instance freshness and
mutation independence). Each JS object that the public API can reach is stored
in a heap under a numeric reference: `HydraModel` instances, `HydraAssociation`
instances, the `_models` map, the `_associations` map, and each per-model
association map. `nextId` is the allocation counter; `new` expressions allocate
fresh references. -/

/-- First-match lookup in a `Nat`-keyed heap. -/
def heapGet {α : Type} (h : List (Nat × α)) (k : Nat) : Option α := alook h k

/-- In-place update (or append) in a `Nat`-keyed heap: JS mutation of the object
behind a reference. -/
def heapSet {α : Type} (h : List (Nat × α)) (k : Nat) (v : α) : List (Nat × α) :=
  mapSet h k v

/-- The mutable object graph: each heap maps references to object states. -/
structure World where
  nextId : Nat
  modelHeap : List (Nat × ModelR)
  assocHeap : List (Nat × AssocR)
  modelsMapHeap : List (Nat × List (String × Nat))
  outerMapHeap : List (Nat × List (String × Nat))
  innerMapHeap : List (Nat × List (String × Nat))

/-- A `HydraModeler` instance: references to its `_models` and `_associations`
maps plus its normalized `_options`. -/
structure Modeler where
  modelsRef : Nat
  assocsRef : Nat
  defaultPrimaryKey : String
  defaultForeignKeySuffix : String
deriving DecidableEq, Repr

def World.allocModel (w : World) (m : ModelR) : World × Nat :=
  ({ w with nextId := w.nextId + 1, modelHeap := w.modelHeap ++ [(w.nextId, m)] },
   w.nextId)

def World.allocAssoc (w : World) (a : AssocR) : World × Nat :=
  ({ w with nextId := w.nextId + 1, assocHeap := w.assocHeap ++ [(w.nextId, a)] },
   w.nextId)

def World.allocModelsMap (w : World) (m : List (String × Nat)) : World × Nat :=
  ({ w with nextId := w.nextId + 1, modelsMapHeap := w.modelsMapHeap ++ [(w.nextId, m)] },
   w.nextId)

def World.allocOuter (w : World) (m : List (String × Nat)) : World × Nat :=
  ({ w with nextId := w.nextId + 1, outerMapHeap := w.outerMapHeap ++ [(w.nextId, m)] },
   w.nextId)

def World.allocInner (w : World) (m : List (String × Nat)) : World × Nat :=
  ({ w with nextId := w.nextId + 1, innerMapHeap := w.innerMapHeap ++ [(w.nextId, m)] },
   w.nextId)

/-- `_addModel` (source lines 548-558) on the object graph: when the name is new,
allocate a `HydraModel` and an empty per-model association map, and mutate the
modeler's `_models` and `_associations` maps; otherwise do nothing. -/
def addModelOp (w : World) (md : Modeler) (name : String) (attrs : List AttrDecl)
    (primaryKey? : Option String) : World :=
  let mm := (heapGet w.modelsMapHeap md.modelsRef).getD []
  if (alook mm name).isSome then w
  else
    let (w1, mref) := w.allocModel (mkHydraModel name attrs primaryKey?)
    let w2 := { w1 with
      modelsMapHeap := heapSet w1.modelsMapHeap md.modelsRef (mapSet mm name mref) }
    let (w3, iref) := w2.allocInner []
    let outer := (heapGet w3.outerMapHeap md.assocsRef).getD []
    { w3 with outerMapHeap := heapSet w3.outerMapHeap md.assocsRef (mapSet outer name iref) }

/-- The association-insertion loop of `associate` (source lines 713-718, including
`ensureAssocMap`) on the object graph: resolve or create the per-model
association map, then insert the built association under its `as` name unless
that name is already taken (first registration wins). The association-builder
callbacks (`belongsTo`, `hasOne`, ...) only read the registry; this operation is
the entire write path shared by all four association kinds. -/
def associatePushOp (w : World) (md : Modeler) (sourceModelName : String) (a : AssocR) :
    World :=
  let outer := (heapGet w.outerMapHeap md.assocsRef).getD []
  match alook outer sourceModelName with
  | some iref =>
    let im := (heapGet w.innerMapHeap iref).getD []
    if (alook im a.as).isSome then w
    else
      let (w1, aref) := w.allocAssoc a
      { w1 with innerMapHeap := heapSet w1.innerMapHeap iref (mapSet im a.as aref) }
  | none =>
    let (w1, iref) := w.allocInner []
    let w2 := { w1 with
      outerMapHeap := heapSet w1.outerMapHeap md.assocsRef (mapSet outer sourceModelName iref) }
    let (w3, aref) := w2.allocAssoc a
    { w3 with innerMapHeap := heapSet w3.innerMapHeap iref (mapSet [] a.as aref) }

/-- `new HydraModel(model.name, model.attributes, model.primaryKey)` as performed by
`cloneFromModeler` (source lines 835-839): the observable attribute keys are all
non-virtual, so the constructor re-filters them unchanged (see `ModelR` for the
`Map` quirk, which is also stable under re-construction). -/
def cloneModelRecord (m : ModelR) : ModelR :=
  mkHydraModel m.name (m.attrs.map (fun s => ⟨s, false⟩)) (some m.primaryKey)

/-- Unreachable default for a heap read through a reference that is always live. -/
def dummyModel : ModelR := { name := "", attrs := [], primaryKey := "" }

/-- Unreachable default for a heap read through a reference that is always live. -/
def dummyAssoc : AssocR :=
  { as := "", associationType := .belongsTo, foreignKey? := none,
    sourceName := "", sourcePrimaryKey := "", sourceKey := "",
    targetName := "", targetPrimaryKey := "", targetKey := "", through? := none }

/-- The model-cloning loop of `cloneFromModeler` (source lines 834-842): for each
source `_models` entry, allocate a fresh cloned `HydraModel` and a fresh empty
per-model association map, producing the clone's `_models` and initial
`_associations` contents. -/
def cloneModelsPhase (w : World) :
    List (String × Nat) → World × List (String × Nat) × List (String × Nat)
  | [] => (w, [], [])
  | (name, mref) :: rest =>
    let m := (heapGet w.modelHeap mref).getD dummyModel
    let (w1, r) := w.allocModel (cloneModelRecord m)
    let (w2, iref) := w1.allocInner []
    let (w3, restMM, restOuter) := cloneModelsPhase w2 rest
    (w3, (name, r) :: restMM, (name, iref) :: restOuter)

/-- The `wrap` helper of `cloneFromModeler` (source lines 845-857): resolve a model
name against the clone's `_models` and `_associations`; fails with
`InternalCloneModelMissingError` when either is absent. Returns the `(name,
primaryKey)` fields of the wrapped model that association cloning snapshots. -/
def wrapLookup (w : World) (newMM outer : List (String × Nat)) (name : String) :
    Except HydraError (String × String) :=
  match alook newMM name with
  | none => .error (.internalCloneModelMissing name)
  | some mref =>
    match alook outer name with
    | none => .error (.internalCloneModelMissing name)
    | some _ =>
      let m := (heapGet w.modelHeap mref).getD dummyModel
      .ok (m.name, m.primaryKey)

/-- Cloning of a `through` specification (source lines 874-883): re-wrap the join
model against the clone, copy the key names and optional alias. -/
def cloneThrough (w : World) (newMM outer : List (String × Nat)) :
    Option Through → Except HydraError (Option Through)
  | none => .ok none
  | some t =>
    match wrapLookup w newMM outer t.modelName with
    | .error e => .error e
    | .ok tm =>
      .ok (some { modelName := tm.1, alias? := t.alias?,
                  foreignKey := t.foreignKey, otherKey := t.otherKey })

/-- The entry-cloning loop over one source association map (source lines 865-887):
rebuild each `HydraAssociation` with `wrap`ped source/target/through models bound
to the clone, allocating a fresh association instance per entry. -/
def cloneAssocEntries (w0 : World) (newMM outer : List (String × Nat))
    (srcName : String) :
    List (String × Nat) → Except HydraError (World × List (String × Nat))
  | [] => .ok (w0, [])
  | (as, aref) :: rest =>
    let assoc := (heapGet w0.assocHeap aref).getD dummyAssoc
    match wrapLookup w0 newMM outer srcName with
    | .error e => .error e
    | .ok s =>
      match wrapLookup w0 newMM outer assoc.targetName with
      | .error e => .error e
      | .ok t =>
        match cloneThrough w0 newMM outer assoc.through? with
        | .error e => .error e
        | .ok thr? =>
          let cloned : AssocR :=
            { as := assoc.as, associationType := assoc.associationType,
              foreignKey? := assoc.foreignKey?,
              sourceName := s.1, sourcePrimaryKey := s.2, sourceKey := assoc.sourceKey,
              targetName := t.1, targetPrimaryKey := t.2, targetKey := assoc.targetKey,
              through? := thr? }
          let (w1, newARef) := w0.allocAssoc cloned
          match cloneAssocEntries w1 newMM outer srcName rest with
          | .error e => .error e
          | .ok (w2, restEntries) => .ok (w2, (as, newARef) :: restEntries)

/-- The association-map cloning loop of `cloneFromModeler` (source lines 860-889):
for each source `_associations` entry, clone its map's entries and replace the
clone's per-model map with a freshly allocated map holding them. -/
def cloneAssocsPhase (w : World) (newMM : List (String × Nat)) :
    List (String × Nat) → List (String × Nat) →
    Except HydraError (World × List (String × Nat))
  | [], outer => .ok (w, outer)
  | (srcName, irefSrc) :: rest, outer =>
    let srcIM := (heapGet w.innerMapHeap irefSrc).getD []
    match cloneAssocEntries w newMM outer srcName srcIM with
    | .error e => .error e
    | .ok (w1, entries) =>
      let (w2, newIRef) := w1.allocInner entries
      cloneAssocsPhase w2 newMM rest (mapSet outer srcName newIRef)

/-- `new HydraModeler(other)` (source lines 483-486 and 830-890): copy the options,
allocate fresh `_models`/`_associations` maps, and run `cloneFromModeler`. The
content of the two top-level maps is computed first and each map is allocated
once holding its final content (the observable result of `new Map()` followed by
the `set` calls of the source). -/
def cloneOp (w : World) (src : Modeler) : Except HydraError (World × Modeler) :=
  let srcMM := (heapGet w.modelsMapHeap src.modelsRef).getD []
  let (w1, newMM, newOuter) := cloneModelsPhase w srcMM
  let srcOuter := (heapGet w1.outerMapHeap src.assocsRef).getD []
  match cloneAssocsPhase w1 newMM srcOuter newOuter with
  | .error e => .error e
  | .ok (w2, outerFinal) =>
    let (w3, mmRef) := w2.allocModelsMap newMM
    let (w4, outerRef) := w3.allocOuter outerFinal
    .ok (w4, { modelsRef := mmRef, assocsRef := outerRef,
               defaultPrimaryKey := src.defaultPrimaryKey,
               defaultForeignKeySuffix := src.defaultForeignKeySuffix })

/-- Read out the registry content visible through a modeler: each model name with
the state of its `HydraModel` instance. -/
def readModels (w : World) (md : Modeler) : List (String × Option ModelR) :=
  ((heapGet w.modelsMapHeap md.modelsRef).getD []).map
    (fun e => (e.1, heapGet w.modelHeap e.2))

/-- Read out the association content visible through a modeler: each source name
with its association map, each entry resolved to the association's state. -/
def readAssocs (w : World) (md : Modeler) :
    List (String × List (String × Option AssocR)) :=
  ((heapGet w.outerMapHeap md.assocsRef).getD []).map
    (fun e => (e.1,
      ((heapGet w.innerMapHeap e.2).getD []).map
        (fun a => (a.1, heapGet w.assocHeap a.2))))

/-- The model-instance references reachable from a modeler. -/
def modelRefsOf (w : World) (md : Modeler) : List Nat :=
  ((heapGet w.modelsMapHeap md.modelsRef).getD []).map Prod.snd

/-- The per-model association-map references reachable from a modeler. -/
def innerRefsOf (w : World) (md : Modeler) : List Nat :=
  ((heapGet w.outerMapHeap md.assocsRef).getD []).map Prod.snd

/-- The association-instance references reachable from a modeler. -/
def assocRefsOf (w : World) (md : Modeler) : List Nat :=
  (((heapGet w.outerMapHeap md.assocsRef).getD []).map
    (fun e => ((heapGet w.innerMapHeap e.2).getD []).map Prod.snd)).flatten

/-- A concrete association whose output name is "A", used as a witness fixture. -/
def cAssocA : AssocR :=
  { as := "A", associationType := .belongsTo, foreignKey? := none,
    sourceName := "M", sourcePrimaryKey := "code", sourceKey := "code",
    targetName := "M", targetPrimaryKey := "code", targetKey := "code",
    through? := none }

/-- All heap keys are live allocations (strictly below the allocation counter),
so a fresh allocation never collides with an existing key. -/
def World.wfDom (w : World) : Prop :=
  (∀ k ∈ w.modelHeap.map Prod.fst, k < w.nextId) ∧
  (∀ k ∈ w.assocHeap.map Prod.fst, k < w.nextId) ∧
  (∀ k ∈ w.modelsMapHeap.map Prod.fst, k < w.nextId) ∧
  (∀ k ∈ w.outerMapHeap.map Prod.fst, k < w.nextId) ∧
  (∀ k ∈ w.innerMapHeap.map Prod.fst, k < w.nextId)

/-- `w'` extends `w`: the counter grew and every reference live in `w` reads the
same in `w'` (the clone phases only append freshly-keyed entries). -/
def Extends (w w' : World) : Prop :=
  w.nextId ≤ w'.nextId ∧
  (∀ k, k < w.nextId → heapGet w'.modelHeap k = heapGet w.modelHeap k) ∧
  (∀ k, k < w.nextId → heapGet w'.assocHeap k = heapGet w.assocHeap k) ∧
  (∀ k, k < w.nextId → heapGet w'.modelsMapHeap k = heapGet w.modelsMapHeap k) ∧
  (∀ k, k < w.nextId → heapGet w'.outerMapHeap k = heapGet w.outerMapHeap k) ∧
  (∀ k, k < w.nextId → heapGet w'.innerMapHeap k = heapGet w.innerMapHeap k)

/-- `w'` preserves every successful read of `w` (also for references allocated
after `w.nextId`): append-only growth. -/
def Preserves (w w' : World) : Prop :=
  (∀ k v, heapGet w.modelHeap k = some v → heapGet w'.modelHeap k = some v) ∧
  (∀ k v, heapGet w.assocHeap k = some v → heapGet w'.assocHeap k = some v) ∧
  (∀ k v, heapGet w.modelsMapHeap k = some v → heapGet w'.modelsMapHeap k = some v) ∧
  (∀ k v, heapGet w.outerMapHeap k = some v → heapGet w'.outerMapHeap k = some v) ∧
  (∀ k v, heapGet w.innerMapHeap k = some v → heapGet w'.innerMapHeap k = some v)

/-- Every reference reachable from the modeler is a live allocation
(strictly below the allocation counter). -/
def Modeler.wf (w : World) (md : Modeler) : Prop :=
  md.modelsRef < w.nextId ∧ md.assocsRef < w.nextId ∧
  (∀ r ∈ modelRefsOf w md, r < w.nextId) ∧
  (∀ r ∈ innerRefsOf w md, r < w.nextId) ∧
  (∀ r ∈ assocRefsOf w md, r < w.nextId)


/-- A concrete five-object graph (one model, one association, the two top-level
maps and one per-model map) used as a witness fixture for cloning. -/
def wCloneW : World :=
  { nextId := 5,
    modelHeap := [(0, { name := "M", attrs := ["code"], primaryKey := "code" })],
    assocHeap := [(3, cAssocA)],
    modelsMapHeap := [(1, [("M", 0)])],
    outerMapHeap := [(2, [("M", 4)])],
    innerMapHeap := [(4, [("A", 3)])] }

/-- The modeler owning the maps of `wCloneW`, used as a witness fixture. -/
def srcCloneW : Modeler :=
  { modelsRef := 1, assocsRef := 2, defaultPrimaryKey := "code",
    defaultForeignKeySuffix := "Code" }

/-- The object graph after cloning `srcCloneW` in `wCloneW`: six fresh
allocations (refs 5-10), the original five objects untouched. -/
def wCloneW' : World :=
  { nextId := 11,
    modelHeap :=
      [(0, { name := "M", attrs := ["code"], primaryKey := "code" }),
       (5, { name := "M", attrs := ["code"], primaryKey := "code" })],
    assocHeap := [(3, cAssocA), (7, cAssocA)],
    modelsMapHeap := [(1, [("M", 0)]), (9, [("M", 5)])],
    outerMapHeap := [(2, [("M", 4)]), (10, [("M", 8)])],
    innerMapHeap := [(4, [("A", 3)]), (6, []), (8, [("A", 7)])] }

/-- The clone modeler produced for `srcCloneW`, used as a witness fixture. -/
def cCloneW : Modeler :=
  { modelsRef := 9, assocsRef := 10, defaultPrimaryKey := "code",
    defaultForeignKeySuffix := "Code" }

end Hydra.RefW

namespace Hydra

-- Concrete fixtures used by witness statements.

/-- A concrete `HasMany` association used as a witness fixture. -/
def cAssocW : AssocR :=
  { as := "P", associationType := .hasMany, foreignKey? := some "CCode",
      sourceName := "C", sourcePrimaryKey := "code", sourceKey := "code",
      targetName := "P", targetPrimaryKey := "code", targetKey := "code",
      through? := none }

/-- A concrete registry used as a witness fixture. -/
def cRegW : Registry :=
  { models := [("C", ⟨"C", ["code"], "code"⟩), ("P", ⟨"P", ["code"], "code"⟩)],
      associations := [("C", [("P", cAssocW)])],
      defaultPrimaryKey := "code", defaultForeignKeySuffix := "Code" }

/-- A concrete `BelongsToMany` association (`Student` to `Course` through
`Enrollment`) used as a witness fixture. -/
def mAssocW : AssocR :=
  { as := "Courses", associationType := .belongsToMany,
    foreignKey? := some "StudentCode",
    sourceName := "Student", sourcePrimaryKey := "code", sourceKey := "code",
    targetName := "Course", targetPrimaryKey := "code", targetKey := "code",
    through? := some { modelName := "Enrollment", alias? := none,
                       foreignKey := "StudentCode", otherKey := "CourseCode" } }

/-- A concrete registry holding `mAssocW`, used as a witness fixture. -/
def mRegW : Registry :=
  { models := [("Student", ⟨"Student", ["code"], "code"⟩),
               ("Course", ⟨"Course", ["code"], "code"⟩),
               ("Enrollment", ⟨"Enrollment", ["code", "StudentCode", "CourseCode"], "code"⟩)],
    associations := [("Student", [("Courses", mAssocW)])],
    defaultPrimaryKey := "code", defaultForeignKeySuffix := "Code" }

/-- Concrete join rows (with a duplicate pair, a null child and a mismatched
other-key) used as a witness fixture. -/
def mRowsW : List Row :=
  [[("Student.code", .vStr "S1"), ("Enrollment.StudentCode", .vStr "S1"),
    ("Enrollment.CourseCode", .vStr "K1"), ("Courses.code", .vStr "K1")],
   [("Student.code", .vStr "S1"), ("Enrollment.StudentCode", .vStr "S1"),
    ("Enrollment.CourseCode", .vStr "K1"), ("Courses.code", .vStr "K1")],
   [("Student.code", .vStr "S1"), ("Enrollment.StudentCode", .vStr "S1"),
    ("Enrollment.CourseCode", .vStr "K2"), ("Courses.code", .vStr "K2")],
   [("Student.code", .vStr "S1"), ("Enrollment.StudentCode", .vStr "S1"),
    ("Enrollment.CourseCode", .vNull), ("Courses.code", .vNull)],
   [("Student.code", .vStr "S1"), ("Enrollment.StudentCode", .vStr "S1"),
    ("Enrollment.CourseCode", .vStr "K9"), ("Courses.code", .vStr "K1")]]

/-- The child schema node of the witness fixture. -/
def mChildW : SchemaNode := .mk "Course" (some "Courses") none []

/-- The survivors of the witness fixture's join filter. -/
def mRelW : List Row :=
  btmFilter mRowsW "Enrollment" "StudentCode" "CourseCode" "Courses" "code"
    (Value.vStr "S1")

-- ------------ Association-list and grouping lemmas ------------

theorem alook_none_iff_not_any {κ α : Type} [DecidableEq κ] (m : List (κ × α)) (k : κ) :
    alook m k = none ↔ m.any (fun p => p.1 = k) = false := by
  induction m with
  | nil => simp [alook]
  | cons p t ih =>
    obtain ⟨k0, v0⟩ := p
    by_cases h : k0 = k
    · subst h
      simp [alook]
    · simp [alook, h, ih]

theorem any_fst_iff_mem {κ α : Type} [DecidableEq κ] (m : List (κ × α)) (k : κ) :
    m.any (fun p => p.1 = k) = true ↔ k ∈ m.map Prod.fst := by
  simp [List.any_eq_true, List.mem_map]

theorem alook_isSome_of_any {κ α : Type} [DecidableEq κ] {m : List (κ × α)} {k : κ}
    (hany : m.any (fun p => p.1 = k) = true) : ∃ g, alook m k = some g := by
  rcases h : alook m k with _ | g
  · rw [alook_none_iff_not_any] at h
    rw [h] at hany
    cases hany
  · exact ⟨g, rfl⟩

theorem alook_append {κ α : Type} [DecidableEq κ] (m m' : List (κ × α)) (k : κ) :
    alook (m ++ m') k = ((alook m k).map some).getD (alook m' k) := by
  induction m with
  | nil => simp [alook]
  | cons p t ih =>
    obtain ⟨k0, v0⟩ := p
    by_cases h : k0 = k
    · subst h
      simp [alook]
    · simp [alook, h, ih]

theorem alook_updateEntry {κ α : Type} [DecidableEq κ] (m : List (κ × α)) (k k' : κ)
    (v : α) :
    alook (updateEntry m k v) k' =
      if k' = k then (alook m k).map (fun _ => v) else alook m k' := by
  induction m with
  | nil => by_cases h : k' = k <;> simp [updateEntry, alook, h]
  | cons p t ih =>
    obtain ⟨k0, v0⟩ := p
    by_cases h0 : k0 = k
    · subst h0
      by_cases h : k' = k0
      · subst h
        simp [updateEntry, alook]
      · simp [updateEntry, alook, h, Ne.symm h, ih]
    · by_cases h : k' = k0
      · subst h
        simp [updateEntry, h0, alook]
      · simp [updateEntry, alook, h0, Ne.symm h, ih, h]

theorem keys_updateEntry {κ α : Type} [DecidableEq κ] (m : List (κ × α)) (k : κ)
    (v : α) : (updateEntry m k v).map Prod.fst = m.map Prod.fst := by
  induction m with
  | nil => simp [updateEntry]
  | cons p t ih =>
    obtain ⟨k0, v0⟩ := p
    by_cases h0 : k0 = k
    · subst h0
      simp [updateEntry, ih]
    · simp [updateEntry, h0, ih]

theorem alook_mapSet {κ α : Type} [DecidableEq κ] (m : List (κ × α)) (k k' : κ)
    (v : α) :
    alook (mapSet m k v) k' = if k' = k then some v else alook m k' := by
  unfold mapSet
  by_cases hany : m.any (fun p => p.1 = k) = true
  · obtain ⟨g, hg⟩ := alook_isSome_of_any hany
    rw [if_pos hany, alook_updateEntry, hg]
    by_cases h : k' = k <;> simp [h]
  · have hnone : alook m k = none := by
      rw [alook_none_iff_not_any]
      exact Bool.eq_false_iff.mpr hany
    rw [if_neg hany, alook_append]
    by_cases h : k' = k
    · subst h
      rw [hnone]
      simp [alook]
    · rcases hl : alook m k' with _ | g <;> simp [alook, h, Ne.symm h, hl]

theorem keys_mapSet {κ α : Type} [DecidableEq κ] (m : List (κ × α)) (k : κ) (v : α) :
    (mapSet m k v).map Prod.fst =
      if k ∈ m.map Prod.fst then m.map Prod.fst else m.map Prod.fst ++ [k] := by
  unfold mapSet
  by_cases hany : m.any (fun p => p.1 = k) = true
  · rw [if_pos hany, keys_updateEntry, if_pos ((any_fst_iff_mem m k).1 hany)]
  · rw [if_neg hany, if_neg (fun hm => hany ((any_fst_iff_mem m k).2 hm))]
    simp

theorem alook_mapInsertGroup (m : List (Value × List Row)) (v v' : Value) (r : Row) :
    alook (mapInsertGroup m v r) v' =
      if v' = v then some ((alook m v).getD [] ++ [r]) else alook m v' := by
  unfold mapInsertGroup
  by_cases hany : m.any (fun p => p.1 = v) = true
  · obtain ⟨g, hg⟩ := alook_isSome_of_any hany
    rw [if_pos hany, alook_updateEntry]
    by_cases h : v' = v
    · subst h
      rw [hg]
      simp
    · simp [h]
  · have hnone : alook m v = none := by
      rw [alook_none_iff_not_any]
      exact Bool.eq_false_iff.mpr hany
    rw [if_neg hany, alook_append]
    by_cases h : v' = v
    · subst h
      rw [hnone]
      simp [alook]
    · rcases hl : alook m v' with _ | g <;> simp [alook, h, Ne.symm h, hl]

theorem keys_mapInsertGroup (m : List (Value × List Row)) (v : Value) (r : Row) :
    (mapInsertGroup m v r).map Prod.fst =
      if v ∈ m.map Prod.fst then m.map Prod.fst else m.map Prod.fst ++ [v] := by
  unfold mapInsertGroup
  by_cases hany : m.any (fun p => p.1 = v) = true
  · rw [if_pos hany, keys_updateEntry, if_pos ((any_fst_iff_mem m v).1 hany)]
  · rw [if_neg hany, if_neg (fun hm => hany ((any_fst_iff_mem m v).2 hm))]
    simp

theorem dedupFirstAux_cons {α : Type} [DecidableEq α] (seen : List α) (a : α)
    (t : List α) :
    dedupFirstAux seen (a :: t) =
      if a ∈ seen then dedupFirstAux seen t else a :: dedupFirstAux (a :: seen) t := rfl

theorem dedupFirstAux_congr {α : Type} [DecidableEq α] (l : List α) :
    ∀ s1 s2 : List α, (∀ a, a ∈ s1 ↔ a ∈ s2) → dedupFirstAux s1 l = dedupFirstAux s2 l := by
  induction l with
  | nil => intro s1 s2 _; rfl
  | cons a t ih =>
    intro s1 s2 hmem
    unfold dedupFirstAux
    by_cases h : a ∈ s1
    · rw [if_pos h, if_pos ((hmem a).1 h)]
      exact ih s1 s2 hmem
    · rw [if_neg h, if_neg (fun hh => h ((hmem a).2 hh))]
      rw [ih (a :: s1) (a :: s2) (by intro b; simp [hmem b])]

theorem dedupFirstAux_mem {α : Type} [DecidableEq α] (l : List α) :
    ∀ (seen : List α) (a : α), a ∈ dedupFirstAux seen l ↔ a ∈ l ∧ a ∉ seen := by
  induction l with
  | nil => intro seen a; simp [dedupFirstAux]
  | cons b t ih =>
    intro seen a
    unfold dedupFirstAux
    by_cases hb : b ∈ seen
    · rw [if_pos hb, ih]
      constructor
      · rintro ⟨h1, h2⟩
        exact ⟨List.mem_cons_of_mem _ h1, h2⟩
      · rintro ⟨h1, h2⟩
        rcases List.mem_cons.1 h1 with h | h
        · subst h
          exact absurd hb h2
        · exact ⟨h, h2⟩
    · rw [if_neg hb]
      by_cases hab : a = b
      · subst hab
        simp [ih, hb]
      · simp only [List.mem_cons, hab, false_or]
        rw [ih]
        simp [hab]

theorem dedupFirstAux_nodup {α : Type} [DecidableEq α] (l : List α) :
    ∀ seen : List α, (dedupFirstAux seen l).Nodup := by
  induction l with
  | nil => intro seen; simp [dedupFirstAux]
  | cons a t ih =>
    intro seen
    unfold dedupFirstAux
    by_cases h : a ∈ seen
    · rw [if_pos h]
      exact ih seen
    · rw [if_neg h]
      refine List.Nodup.cons ?_ (ih (a :: seen))
      intro hmem
      have := (dedupFirstAux_mem t (a :: seen) a).1 hmem
      exact this.2 (List.mem_cons_self a seen)

theorem alook_of_mem_nodup {κ α : Type} [DecidableEq κ] {m : List (κ × α)} {k : κ}
    {v : α} (hmem : (k, v) ∈ m) (hnd : (m.map Prod.fst).Nodup) : alook m k = some v := by
  induction m with
  | nil => cases hmem
  | cons p t ih =>
    obtain ⟨k0, v0⟩ := p
    rcases List.mem_cons.1 hmem with h | h
    · cases h
      simp [alook]
    · have hk : k0 ≠ k := by
        intro he
        subst he
        have hmm : k0 ∈ t.map Prod.fst := List.mem_map.2 ⟨(k0, v), h, rfl⟩
        exact (List.nodup_cons.1 (by simpa using hnd)).1 hmm
      simp only [alook, if_neg hk]
      exact ih h (List.nodup_cons.1 (by simpa using hnd)).2

theorem mapGroupFold_alook_of_guard (g : Value → Bool) (col : String) (v : Value)
    (hg : g v = true) :
    ∀ (rows : List Row) (acc : List (Value × List Row)),
    alook (mapGroupFold g col rows acc) v =
      (match alook acc v with
       | some gr => some (gr ++ rows.filter (fun r => r.get col = v))
       | none =>
         if rows.filter (fun r => r.get col = v) = [] then none
         else some (rows.filter (fun r => r.get col = v))) := by
  intro rows
  induction rows with
  | nil =>
    intro acc
    rcases h : alook acc v with _ | gr <;> simp [mapGroupFold, h]
  | cons r rest ih =>
    intro acc
    unfold mapGroupFold
    by_cases hv0 : g (r.get col) = true
    · rw [if_pos hv0]
      by_cases hvv : r.get col = v
      · have hacc : alook (mapInsertGroup acc (r.get col) r) v =
            some ((alook acc v).getD [] ++ [r]) := by
          rw [alook_mapInsertGroup, if_pos hvv.symm, hvv]
        rw [ih, hacc]
        simp only [List.filter_cons, decide_eq_true_eq, hvv, if_pos True.intro]
        rcases h : alook acc v with _ | gr <;> simp [h]
      · have hacc : alook (mapInsertGroup acc (r.get col) r) v = alook acc v := by
          rw [alook_mapInsertGroup, if_neg (fun he => hvv he.symm)]
        rw [ih, hacc]
        simp only [List.filter_cons, decide_eq_true_eq, hvv]
        simp
    · rw [if_neg hv0]
      have hvv : ¬(r.get col = v) := by
        intro he
        rw [he, hg] at hv0
        exact hv0 rfl
      rw [ih]
      simp only [List.filter_cons, decide_eq_true_eq, hvv]
      simp

theorem mapGroupFold_alook_of_not_guard (g : Value → Bool) (col : String) (v : Value)
    (hg : g v = false) :
    ∀ (rows : List Row) (acc : List (Value × List Row)),
    alook (mapGroupFold g col rows acc) v = alook acc v := by
  intro rows
  induction rows with
  | nil => intro acc; rfl
  | cons r rest ih =>
    intro acc
    unfold mapGroupFold
    by_cases hv0 : g (r.get col) = true
    · rw [if_pos hv0, ih, alook_mapInsertGroup, if_neg]
      intro he
      rw [he, hv0] at hg
      cases hg
    · rw [if_neg hv0, ih]

theorem mapGroupFold_keys (g : Value → Bool) (col : String) :
    ∀ (rows : List Row) (acc : List (Value × List Row)),
    (mapGroupFold g col rows acc).map Prod.fst =
      acc.map Prod.fst ++
        dedupFirstAux (acc.map Prod.fst) ((rows.map (fun r => r.get col)).filter g) := by
  intro rows
  induction rows with
  | nil => intro acc; simp [mapGroupFold, dedupFirstAux]
  | cons r rest ih =>
    intro acc
    unfold mapGroupFold
    by_cases hv0 : g (r.get col) = true
    · rw [if_pos hv0, ih]
      rw [keys_mapInsertGroup]
      by_cases hmem : r.get col ∈ acc.map Prod.fst
      · rw [if_pos hmem]
        simp only [List.map_cons, List.filter_cons, hv0, if_pos True.intro]
        rw [dedupFirstAux_cons, if_pos hmem]
      · rw [if_neg hmem]
        simp only [List.map_cons, List.filter_cons, hv0, if_pos True.intro]
        rw [dedupFirstAux_cons, if_neg hmem]
        rw [dedupFirstAux_congr _ (acc.map Prod.fst ++ [r.get col])
          (r.get col :: acc.map Prod.fst) (by intro a; simp; tauto)]
        simp
    · rw [if_neg hv0, ih]
      simp only [List.map_cons, List.filter_cons, hv0]
      simp [hv0]

theorem groupRowsByPK_ok_eq {rows : List Row} {mn pk al : String}
    {groups : List (Value × List Row)}
    (h : groupRowsByPK rows mn pk al = .ok groups) :
    groups = mapGroupFold Value.truthy (al ++ "." ++ pk) rows [] := by
  by_cases ha : al = ""
  · simp only [groupRowsByPK] at h
    rw [if_pos ha] at h
    cases h
  · cases rows with
    | nil =>
      simp only [groupRowsByPK] at h
      rw [if_neg ha] at h
      cases h
      rfl
    | cons first rest =>
      simp only [groupRowsByPK] at h
      rw [if_neg ha] at h
      by_cases hk : first.hasKey (al ++ "." ++ pk) = true
      · rw [if_pos hk] at h
        exact (Except.ok.inj h).symm
      · rw [if_neg hk] at h
        cases h

theorem groupRowsByPK_error_elim {rows : List Row} {mn pk al : String}
    {e : HydraError} (ha : al ≠ "") {first : Row} {rest : List Row}
    (hr : rows = first :: rest)
    (h : groupRowsByPK rows mn pk al = .error e) :
    e = .prefixedPrimaryKeyNotFound al pk ∧
      first.hasKey (al ++ "." ++ pk) = false := by
  subst hr
  simp only [groupRowsByPK] at h
  rw [if_neg ha] at h
  by_cases hk : first.hasKey (al ++ "." ++ pk) = true
  · rw [if_pos hk] at h
    cases h
  · rw [if_neg hk] at h
    exact ⟨(Except.error.inj h).symm, Bool.eq_false_iff.mpr hk⟩

theorem groupRowsByPK_error_of_noKey {rows : List Row} {mn pk al : String}
    (ha : al ≠ "") {first : Row} {rest : List Row} (hr : rows = first :: rest)
    (hk : first.hasKey (al ++ "." ++ pk) = false) :
    groupRowsByPK rows mn pk al = .error (.prefixedPrimaryKeyNotFound al pk) := by
  subst hr
  simp only [groupRowsByPK]
  rw [if_neg ha]
  exact if_neg (by rw [hk]; exact Bool.false_ne_true)

theorem except_mapM_ok_length {ee α β : Type} (f : α → Except ee β) :
    ∀ (l : List α) (out : List β), exceptMapM f l = .ok out → out.length = l.length := by
  intro l
  induction l with
  | nil =>
    intro out h
    cases h
    rfl
  | cons a t ih =>
    intro out h
    unfold exceptMapM at h
    cases hf : f a with
    | error e =>
      rw [hf] at h
      cases h
    | ok b =>
      rw [hf] at h
      cases ht : exceptMapM f t with
      | error e =>
        rw [ht] at h
        cases h
      | ok bs =>
        rw [ht] at h
        cases h
        simp [ih bs ht]

theorem modelerHydrate_ok {reg : Registry} {rows : List Row} {schema : SchemaNode}
    {out : List Obj} (h : HydraModeler.hydrate reg rows schema = .ok out) :
    allObjectsHaveSameProperties rows = true ∧
      Hydrator.hydrate reg rows schema = .ok out := by
  unfold HydraModeler.hydrate at h
  by_cases hh : allObjectsHaveSameProperties rows = true
  · rw [hh] at h
    simp at h
    exact ⟨hh, h⟩
  · rw [Bool.eq_false_iff.mpr hh] at h
    simp at h

theorem hydratorHydrate_ok {reg : Registry} {rows : List Row} {schema : SchemaNode}
    {out : List Obj} {rootModel : ModelR}
    (hm : reg.getModel? schema.model = some rootModel)
    (h : Hydrator.hydrate reg rows schema = .ok out) :
    ∃ groups,
      groupRowsByPK rows rootModel.name rootModel.primaryKey (effAlias schema) =
        .ok groups ∧
      exceptMapM (fun g => hydrateModelRecursive reg schema g [])
        (groups.map (fun p => p.2)) = .ok out := by
  unfold Hydrator.hydrate at h
  split at h
  · cases h
  · split at h
    · cases h
    · rename_i rootModel' hm'
      rw [hm] at hm'
      cases hm'
      dsimp only at h
      split at h
      · cases h
      · rename_i groups hg
        exact ⟨groups, hg, h⟩

theorem mem_of_alook_some {κ α : Type} [DecidableEq κ] {m : List (κ × α)} {k : κ}
    {v : α} (h : alook m k = some v) : (k, v) ∈ m := by
  induction m with
  | nil => cases h
  | cons p t ih =>
    obtain ⟨k0, v0⟩ := p
    by_cases hk : k0 = k
    · subst hk
      simp only [alook, if_pos rfl] at h
      cases h
      exact List.mem_cons_self _ _
    · simp only [alook, if_neg hk] at h
      exact List.mem_cons_of_mem _ (ih h)

-- ------------ Claim theorems ------------

/-- C5: with a non-empty alias and a non-empty row sequence, `groupRowsByPK`
raises an error iff the identity column `{alias}.{primaryKey}` is absent from the
first row, and that error is always `PrefixedPrimaryKeyNotFound`; the remaining
rows `rest` are arbitrary, so later rows are never consulted by the check. -/
theorem groupRowsByPK_error_iff_first_lacks_column
    (rows : List Row) (mn pk al : String) (first : Row) (rest : List Row)
    (ha : al ≠ "") (hr : rows = first :: rest) :
    (groupRowsByPK rows mn pk al = .error (.prefixedPrimaryKeyNotFound al pk) ↔
      first.hasKey (al ++ "." ++ pk) = false) ∧
    (∀ e, groupRowsByPK rows mn pk al = .error e →
      e = .prefixedPrimaryKeyNotFound al pk) := by
  refine ⟨⟨fun h => (groupRowsByPK_error_elim ha hr h).2,
    fun hk => groupRowsByPK_error_of_noKey ha hr hk⟩,
    fun e he => (groupRowsByPK_error_elim ha hr he).1⟩

theorem groupRowsByPK_error_iff_witness :
    (groupRowsByPK [[("A.code", .vInt 1)], []] "M" "code" "A" =
        .error (.prefixedPrimaryKeyNotFound "A" "code") ↔
      Row.hasKey [("A.code", .vInt 1)] ("A" ++ "." ++ "code") = false) ∧
    (∀ e, groupRowsByPK [[("A.code", .vInt 1)], []] "M" "code" "A" = .error e →
      e = .prefixedPrimaryKeyNotFound "A" "code") :=
  groupRowsByPK_error_iff_first_lacks_column
    [[("A.code", .vInt 1)], []] "M" "code" "A" [("A.code", .vInt 1)] [[]]
    (by decide) rfl

/-- C6: in a successful grouping, each group under key `v` is exactly the
subsequence of input rows whose identity value is `v` (input order preserved),
and a row lands in some group iff its identity value is truthy. -/
theorem groupRowsByPK_truthy_membership_and_order
    (rows : List Row) (mn pk al col : String) (groups : List (Value × List Row))
    (hcol : col = al ++ "." ++ pk)
    (hok : groupRowsByPK rows mn pk al = .ok groups) :
    (∀ v gr, (v, gr) ∈ groups → gr = rows.filter (fun r => r.get col = v)) ∧
    (∀ r ∈ rows,
      (∃ v gr, (v, gr) ∈ groups ∧ r ∈ gr) ↔ (r.get col).truthy = true) := by
  subst hcol
  have hge := groupRowsByPK_ok_eq hok
  subst hge
  have hkeys := mapGroupFold_keys Value.truthy (al ++ "." ++ pk) rows []
  simp only [List.map_nil, List.nil_append] at hkeys
  have hnd : ((mapGroupFold Value.truthy (al ++ "." ++ pk) rows []).map
      Prod.fst).Nodup := by
    rw [hkeys]
    exact dedupFirstAux_nodup _ _
  have hmain : ∀ v gr,
      (v, gr) ∈ mapGroupFold Value.truthy (al ++ "." ++ pk) rows [] →
      gr = rows.filter (fun r => r.get (al ++ "." ++ pk) = v) ∧
        v.truthy = true := by
    intro v gr hmem
    have halook := alook_of_mem_nodup hmem hnd
    by_cases hg : v.truthy = true
    · have := mapGroupFold_alook_of_guard Value.truthy (al ++ "." ++ pk) v hg rows []
      rw [halook] at this
      simp only [alook] at this
      by_cases hemp : rows.filter
          (fun r => decide (r.get (al ++ "." ++ pk) = v)) = []
      · rw [if_pos hemp] at this
        cases this
      · rw [if_neg hemp] at this
        exact ⟨Option.some.inj this, hg⟩
    · have := mapGroupFold_alook_of_not_guard Value.truthy (al ++ "." ++ pk) v
        (Bool.eq_false_iff.mpr hg) rows []
      rw [halook] at this
      simp only [alook] at this
      cases this
  refine ⟨fun v gr hmem => (hmain v gr hmem).1, fun r hr => ?_⟩
  constructor
  · rintro ⟨v, gr, hmem, hrg⟩
    obtain ⟨hfil, htr⟩ := hmain v gr hmem
    subst hfil
    have := (List.mem_filter.1 hrg).2
    have heq : r.get (al ++ "." ++ pk) = v := by simpa using this
    rw [heq]
    exact htr
  · intro htr
    have hg := mapGroupFold_alook_of_guard Value.truthy (al ++ "." ++ pk)
      (r.get (al ++ "." ++ pk)) htr rows []
    simp only [alook] at hg
    have hrf : r ∈ rows.filter
        (fun r0 => decide (r0.get (al ++ "." ++ pk) = r.get (al ++ "." ++ pk))) :=
      List.mem_filter.2 ⟨hr, by simp⟩
    have hemp : rows.filter
        (fun r0 => decide (r0.get (al ++ "." ++ pk) = r.get (al ++ "." ++ pk))) ≠ [] := by
      intro he
      rw [he] at hrf
      cases hrf
    rw [if_neg hemp] at hg
    exact ⟨r.get (al ++ "." ++ pk), _, mem_of_alook_some hg, hrf⟩

theorem groupRowsByPK_truthy_membership_witness :
    (∀ v gr,
      (v, gr) ∈ ([(Value.vStr "C1",
        [[("A.code", Value.vStr "C1")], [("A.code", Value.vStr "C1")]])] :
          List (Value × List Row)) →
      gr = ([[("A.code", Value.vStr "C1")], [("A.code", Value.vNull)],
        [("A.code", Value.vStr "C1")]] : List Row).filter
          (fun r => Row.get r "A.code" = v)) ∧
    (∀ r ∈ ([[("A.code", Value.vStr "C1")], [("A.code", Value.vNull)],
        [("A.code", Value.vStr "C1")]] : List Row),
      (∃ v gr, (v, gr) ∈ ([(Value.vStr "C1",
        [[("A.code", Value.vStr "C1")], [("A.code", Value.vStr "C1")]])] :
          List (Value × List Row)) ∧ r ∈ gr) ↔
        (Row.get r "A.code").truthy = true) :=
  groupRowsByPK_truthy_membership_and_order
    [[("A.code", .vStr "C1")], [("A.code", .vNull)], [("A.code", .vStr "C1")]]
    "M" "code" "A" "A.code"
    [(Value.vStr "C1",
      [[("A.code", Value.vStr "C1")], [("A.code", Value.vStr "C1")]])]
    rfl (by with_unfolding_all rfl)

/-- C1 (amended): a successful hydration returns exactly one output object per
distinct truthy root identity value; the root groups are keyed by the distinct
truthy identity values in first-appearance order, and the outputs are produced by
hydrating those groups in that order. -/
theorem hydrate_one_output_per_truthy_identity
    (reg : Registry) (rows : List Row) (schema : SchemaNode) (rootModel : ModelR)
    (out : List Obj) (idCol : String)
    (hm : reg.getModel? schema.model = some rootModel)
    (hcol : idCol = effAlias schema ++ "." ++ rootModel.primaryKey)
    (hok : HydraModeler.hydrate reg rows schema = .ok out) :
    out.length =
      (dedupFirst ((rows.map (fun r => r.get idCol)).filter Value.truthy)).length ∧
    (mapGroupFold Value.truthy idCol rows []).map Prod.fst =
      dedupFirst ((rows.map (fun r => r.get idCol)).filter Value.truthy) ∧
    exceptMapM (fun g => hydrateModelRecursive reg schema g [])
      ((mapGroupFold Value.truthy idCol rows []).map (fun p => p.2)) = .ok out := by
  obtain ⟨hhomog, hh⟩ := modelerHydrate_ok hok
  obtain ⟨groups, hg, hmap⟩ := hydratorHydrate_ok hm hh
  have hge := groupRowsByPK_ok_eq hg
  rw [← hcol] at hge
  subst hge
  have hkeys := mapGroupFold_keys Value.truthy idCol rows []
  simp only [List.map_nil, List.nil_append] at hkeys
  refine ⟨?_, hkeys, hmap⟩
  have hlen := except_mapM_ok_length _ _ _ hmap
  rw [List.length_map] at hlen
  rw [hlen]
  have := congrArg List.length hkeys
  rw [List.length_map] at this
  exact this

theorem hydrate_one_output_per_truthy_identity_witness :
    ([([("code", OutVal.prim (Value.vStr "x"))] : Obj)] : List Obj).length =
      (dedupFirst ((([[("R.code", Value.vStr "x")]] : List Row).map
        (fun r => r.get "R.code")).filter Value.truthy)).length ∧
    (mapGroupFold Value.truthy "R.code"
        ([[("R.code", Value.vStr "x")]] : List Row) []).map Prod.fst =
      dedupFirst ((([[("R.code", Value.vStr "x")]] : List Row).map
        (fun r => r.get "R.code")).filter Value.truthy) ∧
    exceptMapM
      (fun g => hydrateModelRecursive
        { models := [("R", { name := "R", attrs := ["code"], primaryKey := "code" })],
          associations := [("R", [])], defaultPrimaryKey := "code",
          defaultForeignKeySuffix := "Code" }
        (.mk "R" none none []) g [])
      ((mapGroupFold Value.truthy "R.code"
        ([[("R.code", Value.vStr "x")]] : List Row) []).map (fun p => p.2)) =
      .ok [([("code", OutVal.prim (Value.vStr "x"))] : Obj)] := by
  have h := hydrate_one_output_per_truthy_identity
    { models := [("R", { name := "R", attrs := ["code"], primaryKey := "code" })],
      associations := [("R", [])], defaultPrimaryKey := "code",
      defaultForeignKeySuffix := "Code" }
    [[("R.code", Value.vStr "x")]] (.mk "R" none none [])
    { name := "R", attrs := ["code"], primaryKey := "code" }
    [([("code", OutVal.prim (Value.vStr "x"))] : Obj)] "R.code"
    (by with_unfolding_all rfl) rfl (by with_unfolding_all rfl)
  exact h

/-- C1 is false as stated: a single row whose root identity value is `null` is
silently dropped, so hydration returns zero output objects although the rows have
one distinct root identity value. -/
theorem hydrate_grouping_cex :
    HydraModeler.hydrate
      { models := [("Root", { name := "Root", attrs := ["code"], primaryKey := "code" })],
        associations := [("Root", [])], defaultPrimaryKey := "code",
        defaultForeignKeySuffix := "Code" }
      [[("Root.code", .vNull)]] (.mk "Root" none none []) = .ok [] ∧
    (dedupFirst (([[("Root.code", Value.vNull)]] : List Row).map
      (fun r => r.get "Root.code"))).length = 1 := by
  constructor
  · with_unfolding_all rfl
  · rfl

/-- C9: hydration is a pure function of the registry content, the rows, and the
schema (post-process transforms are modelled as pure functions), so equal inputs
give equal outputs. -/
theorem hydrate_deterministic (reg1 reg2 : Registry) (rows1 rows2 : List Row)
    (s1 s2 : SchemaNode) (h1 : reg1 = reg2) (h2 : rows1 = rows2) (h3 : s1 = s2) :
    HydraModeler.hydrate reg1 rows1 s1 = HydraModeler.hydrate reg2 rows2 s2 := by
  subst h1
  subst h2
  subst h3
  rfl

theorem hydrate_deterministic_witness :
    HydraModeler.hydrate (Registry.make none none) [] (.mk "M" none none []) =
      HydraModeler.hydrate (Registry.make none none) [] (.mk "M" none none []) :=
  hydrate_deterministic (Registry.make none none) (Registry.make none none)
    [] [] (.mk "M" none none []) (.mk "M" none none []) rfl rfl rfl

/-- C4 is false as stated: with `defaultPrimaryKey` configured as `"id"`, a model
registered without an explicit primary key gets the literal `"code"`, not the
configured default. -/
theorem model_default_pk_cex :
    ((Registry.make (some "id") none).addModel "M" [⟨"code", false⟩] none).getModel?
      "M" = some { name := "M", attrs := ["code"], primaryKey := "code" } ∧
    (Registry.make (some "id") none).defaultPrimaryKey = "id" ∧
    ("code" : String) ≠ "id" := ⟨rfl, rfl, by decide⟩

/-- C4 (amended): a model registered without an explicit primary-key argument gets
the literal `'code'` (regardless of the configured `defaultPrimaryKey`), while
association source/target keys left unspecified do default to the registry's
configured `defaultPrimaryKey`. -/
theorem registered_model_pk_defaults_to_literal_code
    (reg : Registry) (name : String) (attrs : List AttrDecl)
    (src tgt : String) (sm tm : ModelR) (o : BelongsToOpts)
    (hname : reg.getModel? name = none)
    (hsm : reg.getModel? src = some sm) (htm : reg.getModel? tgt = some tm)
    (hsk : o.sourceKey? = none) (htk : o.targetKey? = none) :
    ((reg.addModel name attrs none).getModel? name) =
      some (mkHydraModel name attrs none) ∧
    (mkHydraModel name attrs none).primaryKey = "code" ∧
    ∃ a, mkBelongsTo reg src tgt o = .ok a ∧
      a.sourceKey = reg.defaultPrimaryKey ∧ a.targetKey = reg.defaultPrimaryKey := by
  refine ⟨?_, rfl, ?_⟩
  · unfold Registry.addModel
    rw [hname]
    simp only [Option.isSome_none, Bool.false_eq_true, if_false]
    unfold Registry.getModel?
    simp [alook_mapSet]
  · simp only [mkBelongsTo, hsm, htm, hsk, htk]
    exact ⟨_, rfl, rfl, rfl⟩

theorem registered_model_pk_defaults_witness :
    (((Registry.make (some "id") none).addModel "S" [⟨"id", false⟩] (some "id")
        |>.addModel "T" [⟨"id", false⟩] (some "id")).addModel "M"
        [⟨"code", false⟩] none).getModel? "M" =
      some (mkHydraModel "M" [⟨"code", false⟩] none) ∧
    (mkHydraModel "M" [⟨"code", false⟩] none).primaryKey = "code" ∧
    ∃ a, mkBelongsTo
        ((Registry.make (some "id") none).addModel "S" [⟨"id", false⟩] (some "id")
          |>.addModel "T" [⟨"id", false⟩] (some "id")) "S" "T" {} = .ok a ∧
      a.sourceKey = ((Registry.make (some "id") none).addModel "S" [⟨"id", false⟩]
        (some "id") |>.addModel "T" [⟨"id", false⟩] (some "id")).defaultPrimaryKey ∧
      a.targetKey = ((Registry.make (some "id") none).addModel "S" [⟨"id", false⟩]
        (some "id") |>.addModel "T" [⟨"id", false⟩] (some "id")).defaultPrimaryKey :=
  registered_model_pk_defaults_to_literal_code
    ((Registry.make (some "id") none).addModel "S" [⟨"id", false⟩] (some "id")
      |>.addModel "T" [⟨"id", false⟩] (some "id"))
    "M" [⟨"code", false⟩] "S" "T"
    (mkHydraModel "S" [⟨"id", false⟩] (some "id"))
    (mkHydraModel "T" [⟨"id", false⟩] (some "id")) {}
    rfl rfl rfl rfl rfl

/-- C7 is false as stated: two rows with provably different key sets whose sorted
'|'-joined fingerprints coincide (a key containing '|') pass the homogeneity
check, and hydration proceeds to a later error instead of
`AllFlatRowsMustHaveSameProperties`. -/
theorem same_properties_check_cex :
    ("b" ∈ Row.keys ([("a", Value.vInt 1), ("b", Value.vInt 2)] : Row) ∧
     "b" ∉ Row.keys ([("a|b", Value.vInt 1)] : Row)) ∧
    HydraModeler.hydrate (Registry.make none none)
      ([[("a|b", .vInt 1)], [("a", .vInt 1), ("b", .vInt 2)]] : List Row)
      (.mk "Z" none none []) = .error (.schemaAliasMissing "Z" "Z") := by
  refine ⟨⟨by decide, by decide⟩, ?_⟩
  with_unfolding_all rfl

/-- C7 (amended): the homogeneity check compares rows by their sorted '|'-joined
key string. When two input rows have different fingerprints, hydrate raises
`AllFlatRowsMustHaveSameProperties` whatever the registry and schema are (so no
other check can be observed first), and the fingerprint is invariant under
permutation of a row's keys (key order inside a row is irrelevant). Distinct key
sets with equal fingerprints escape the check. -/
theorem hydrate_same_properties_amended
    (reg : Registry) (rows : List Row) (schema : SchemaNode) (r1 r2 : Row)
    (h1 : r1 ∈ rows) (h2 : r2 ∈ rows)
    (hne : sortedKeysJoined r1 ≠ sortedKeysJoined r2) :
    HydraModeler.hydrate reg rows schema =
      .error .allFlatRowsMustHaveSameProperties ∧
    ∀ ra rb : Row, ra.keys.Perm rb.keys →
      sortedKeysJoined ra = sortedKeysJoined rb := by
  constructor
  · have hall : allObjectsHaveSameProperties rows = false := by
      cases rows with
      | nil => cases h1
      | cons first rest =>
        cases rest with
        | nil =>
          have e1 : r1 = first := by simpa using h1
          have e2 : r2 = first := by simpa using h2
          rw [e1, e2] at hne
          exact absurd rfl hne
        | cons second rest2 =>
          unfold allObjectsHaveSameProperties
          rw [Bool.eq_false_iff]
          intro hall
          rw [List.all_eq_true] at hall
          have e1 := hall r1 h1
          have e2 := hall r2 h2
          simp only [decide_eq_true_eq] at e1 e2
          exact hne (e1.trans e2.symm)
    unfold HydraModeler.hydrate
    rw [hall]
    rfl
  · intro ra rb hperm
    unfold sortedKeysJoined
    congr 1
    haveI hanti : IsAntisymm String (fun a b => a ≤ b) :=
      ⟨fun a b hab hba => le_antisymm hab hba⟩
    haveI htot : IsTotal String (fun a b => a ≤ b) := ⟨fun a b => le_total a b⟩
    haveI htrans : IsTrans String (fun a b => a ≤ b) :=
      ⟨fun a b c hab hbc => le_trans hab hbc⟩
    exact List.eq_of_perm_of_sorted
      ((List.perm_insertionSort _ ra.keys).trans
        (hperm.trans (List.perm_insertionSort _ rb.keys).symm))
      (List.sorted_insertionSort _ ra.keys)
      (List.sorted_insertionSort _ rb.keys)

theorem hydrate_same_properties_witness :
    (HydraModeler.hydrate (Registry.make none none)
      ([[("a", .vInt 1)], [("b", .vInt 2)]] : List Row) (.mk "Z" none none []) =
      .error .allFlatRowsMustHaveSameProperties) ∧
    (∀ ra rb : Row, ra.keys.Perm rb.keys →
      sortedKeysJoined ra = sortedKeysJoined rb) :=
  hydrate_same_properties_amended (Registry.make none none)
    [[("a", .vInt 1)], [("b", .vInt 2)]] (.mk "Z" none none [])
    [("a", .vInt 1)] [("b", .vInt 2)] (by decide) (by decide)
    (by with_unfolding_all decide)

theorem checkNodeAliases_mk (pfxs : List String) (m : String) (a? : Option String)
    (pp : Option PostP) (cs : List SchemaNode) :
    checkNodeAliases pfxs (.mk m a? pp cs) =
      if pfxs.contains (strOr (a?.getD "") m) then checkNodesAliases pfxs cs
      else .error (.schemaAliasMissing (strOr (a?.getD "") m) m) := rfl

theorem checkNodesAliases_cons (pfxs : List String) (c : SchemaNode)
    (cs : List SchemaNode) :
    checkNodesAliases pfxs (c :: cs) =
      match checkNodeAliases pfxs c with
      | .error e => .error e
      | .ok _ => checkNodesAliases pfxs cs := rfl

/-- Shape and completeness of the alias validator: it either succeeds or fails
with `SchemaAliasMissing`, and it succeeds exactly when every node of the schema
tree has its effective alias among the column prefixes. -/
theorem checkNodeAliases_shape_and_complete (pfxs : List String) (node : SchemaNode) :
    (checkNodeAliases pfxs node = .ok () ∨
      ∃ a m, checkNodeAliases pfxs node = .error (.schemaAliasMissing a m)) ∧
    (checkNodeAliases pfxs node = .ok () ↔
      ∀ x ∈ node.nodesOf, pfxs.contains (effAlias x) = true) := by
  refine checkNodeAliases.induct pfxs
    (fun n => (checkNodeAliases pfxs n = .ok () ∨
        ∃ a m, checkNodeAliases pfxs n = .error (.schemaAliasMissing a m)) ∧
      (checkNodeAliases pfxs n = .ok () ↔
        ∀ x ∈ n.nodesOf, pfxs.contains (effAlias x) = true))
    (fun cs => (checkNodesAliases pfxs cs = .ok () ∨
        ∃ a m, checkNodesAliases pfxs cs = .error (.schemaAliasMissing a m)) ∧
      (checkNodesAliases pfxs cs = .ok () ↔
        ∀ x ∈ nodesOfList cs, pfxs.contains (effAlias x) = true))
    ?_ ?_ ?_ ?_ ?_ node
  · intro m a? pp children a hcont ih
    rw [checkNodeAliases_mk]
    simp only [a] at hcont
    rw [if_pos hcont]
    refine ⟨ih.1, ?_⟩
    rw [ih.2]
    constructor
    · intro hall x hx
      rcases List.mem_cons.1 (by simpa [SchemaNode.nodesOf] using hx) with h | h
      · subst h
        simpa [effAlias, SchemaNode.alias?, SchemaNode.model] using hcont
      · exact hall x h
    · intro hall x hx
      exact hall x (by simp [SchemaNode.nodesOf, List.mem_cons]; right; exact hx)
  · intro m a? pp children a hcont
    rw [checkNodeAliases_mk]
    simp only [a] at hcont
    rw [if_neg hcont]
    refine ⟨Or.inr ⟨_, _, rfl⟩, ?_⟩
    constructor
    · intro h
      cases h
    · intro hall
      exact absurd (by
        simpa [effAlias, SchemaNode.alias?, SchemaNode.model] using
          hall (.mk m a? pp children) (by simp [SchemaNode.nodesOf])) hcont
  · exact ⟨Or.inl rfl, by simp [checkNodesAliases, nodesOfList]⟩
  · intro c cs e herr ih
    rw [checkNodesAliases_cons, herr]
    have hshape : ∃ a m, e = .schemaAliasMissing a m := by
      rcases ih.1 with h | ⟨a, m, h⟩
      · rw [h] at herr
        cases herr
      · rw [h] at herr
        exact ⟨a, m, (Except.error.inj herr).symm⟩
    obtain ⟨a, m, he⟩ := hshape
    refine ⟨Or.inr ⟨a, m, by rw [he]⟩, ?_⟩
    constructor
    · intro h
      cases h
    · intro hall
      have : checkNodeAliases pfxs c = .ok () := by
        rw [ih.2]
        intro x hx
        exact hall x (by simp [nodesOfList]; left; exact hx)
      rw [this] at herr
      cases herr
  · intro c cs u hok ih1 ih2
    rw [checkNodesAliases_cons, hok]
    refine ⟨ih2.1, ?_⟩
    rw [ih2.2]
    constructor
    · intro hall x hx
      rcases (by simpa [nodesOfList] using hx :
          x ∈ c.nodesOf ∨ x ∈ nodesOfList cs) with h | h
      · cases u
        exact (ih1.2.1 hok) x h
      · exact hall x h
    · intro hall x hx
      exact hall x (by simp [nodesOfList]; right; exact hx)

theorem hydrateChildren_cons (reg : Registry) (model : ModelR) (aliasStr : String)
    (row : Row) (rows : List Row) (parentsIn : List (String × Obj))
    (child : SchemaNode) (rest : List SchemaNode) (result : Obj) :
    hydrateChildren reg model aliasStr row rows parentsIn (child :: rest) result =
      match planChild reg model aliasStr row rows child with
      | .skip => hydrateChildren reg model aliasStr row rows parentsIn rest result
      | .err e => .error e
      | .oneAbsent => hydrateChildren reg model aliasStr row rows parentsIn rest result
      | .one outputKey g =>
        match hydrateModelRecursive reg child g (mapSet parentsIn aliasStr result) with
        | .error e => .error e
        | .ok o =>
          hydrateChildren reg model aliasStr row rows parentsIn rest
            (mapSet result outputKey (.obj o))
      | .many outputKey groups =>
        match exceptMapM
            (fun g => hydrateModelRecursive reg child g (mapSet parentsIn aliasStr result))
            groups with
        | .error e => .error e
        | .ok objs =>
          hydrateChildren reg model aliasStr row rows parentsIn rest
            (mapSet result outputKey (.arr (objs.map .obj))) := rfl

/-- In the child loop, a child whose columns are present but whose rows group to
zero identities plans an empty `HasMany` array or an omitted `BelongsTo`/`HasOne`
key. -/
theorem planChild_zero_identities (reg : Registry) (model : ModelR)
    (aliasStr : String) (row : Row) (rows : List Row) (child : SchemaNode)
    (assoc : AssocR) (outKey : String)
    (hhk : rows.any (fun r => r.keys.any
      (fun k => strIsPrefixOf (effAlias child ++ ".") k)) = true)
    (hassoc : reg.getAssociation? model.name
      (strOr ((child.alias?).getD "") child.model) = some assoc)
    (hgz : groupRowsByPK rows assoc.targetName assoc.targetPrimaryKey
      (effAlias child) = .ok [])
    (houtk : outKey = match child.alias? with
      | none => assoc.as
      | some _ => effAlias child) :
    (assoc.associationType = .hasMany →
      planChild reg model aliasStr row rows child = .many outKey []) ∧
    ((assoc.associationType = .belongsTo ∨ assoc.associationType = .hasOne) →
      planChild reg model aliasStr row rows child = .oneAbsent) := by
  unfold planChild
  dsimp only
  rw [hhk]
  simp only [Bool.not_true, Bool.false_eq_true, if_false]
  rw [hassoc]
  dsimp only
  constructor
  · intro hty
    rw [hty]
    dsimp only
    rw [hgz]
    simp [houtk]
  · intro hty
    rcases hty with hty | hty <;>
    · rw [hty]
      dsimp only
      rw [hgz]

/-- C3 (amended to homogeneous rows): an effective alias of some schema node that
is no column prefix of the first row makes hydration fail with
`SchemaAliasMissing` (hard miss), whereas a child whose columns are present but
whose rows group to zero identities yields an empty array (`HasMany`) or leaves
the result object unchanged, omitting the key (`BelongsTo`/`HasOne`), with no
error (soft miss). -/
theorem alias_hard_miss_vs_soft_miss
    (regA : Registry) (rowsA : List Row) (schemaA : SchemaNode) (rowA : Row)
    (restA : List Row) (nA : SchemaNode)
    (hrowsA : rowsA = rowA :: restA)
    (hhomogA : allObjectsHaveSameProperties rowsA = true)
    (hnA : nA ∈ schemaA.nodesOf)
    (hmissA : (rowPfxList rowA).contains (effAlias nA) = false)
    (reg : Registry) (model : ModelR) (aliasStr : String) (row : Row)
    (rows : List Row) (parentsIn : List (String × Obj)) (child : SchemaNode)
    (rest : List SchemaNode) (result : Obj) (assoc : AssocR) (outKey : String)
    (hhk : rows.any (fun r => r.keys.any
      (fun k => strIsPrefixOf (effAlias child ++ ".") k)) = true)
    (hassoc : reg.getAssociation? model.name
      (strOr ((child.alias?).getD "") child.model) = some assoc)
    (hgz : groupRowsByPK rows assoc.targetName assoc.targetPrimaryKey
      (effAlias child) = .ok [])
    (houtk : outKey = match child.alias? with
      | none => assoc.as
      | some _ => effAlias child) :
    (∃ a m, HydraModeler.hydrate regA rowsA schemaA =
      .error (.schemaAliasMissing a m)) ∧
    (assoc.associationType = .hasMany →
      hydrateChildren reg model aliasStr row rows parentsIn (child :: rest) result =
        hydrateChildren reg model aliasStr row rows parentsIn rest
          (mapSet result outKey (.arr []))) ∧
    ((assoc.associationType = .belongsTo ∨ assoc.associationType = .hasOne) →
      hydrateChildren reg model aliasStr row rows parentsIn (child :: rest) result =
        hydrateChildren reg model aliasStr row rows parentsIn rest result) := by
  obtain ⟨hplanMany, hplanOne⟩ := planChild_zero_identities reg model aliasStr row
    rows child assoc outKey hhk hassoc hgz houtk
  refine ⟨?_, ?_, ?_⟩
  · obtain ⟨hshape, hcompl⟩ :=
      checkNodeAliases_shape_and_complete (rowPfxList rowA) schemaA
    have hcheck : ∃ a m, checkNodeAliases (rowPfxList rowA) schemaA =
        .error (.schemaAliasMissing a m) := by
      rcases hshape with hok | he
      · exfalso
        have := (hcompl.1 hok) nA hnA
        rw [this] at hmissA
        cases hmissA
      · exact he
    obtain ⟨a, m, he⟩ := hcheck
    refine ⟨a, m, ?_⟩
    unfold HydraModeler.hydrate
    rw [hhomogA]
    simp only [Bool.not_true, Bool.false_eq_true, if_false]
    unfold Hydrator.hydrate
    rw [hrowsA]
    unfold checkAllSchemaAliasesPresent
    dsimp only
    rw [he]
  · intro hty
    rw [hydrateChildren_cons, hplanMany hty]
    rfl
  · intro hty
    rw [hydrateChildren_cons, hplanOne hty]

/-- C3 is false as stated: with heterogeneous non-empty rows, a schema alias that
is no column prefix of the first row makes hydration fail with
`AllFlatRowsMustHaveSameProperties`, not `SchemaAliasMissing`. -/
theorem alias_hard_miss_cex :
    ((rowPfxList [("A.code", Value.vInt 1)]).contains
      (effAlias (.mk "Z" none none [])) = false) ∧
    HydraModeler.hydrate (Registry.make none none)
      ([[("A.code", .vInt 1)], [("B.code", .vInt 1)]] : List Row)
      (.mk "Z" none none []) = .error .allFlatRowsMustHaveSameProperties :=
  ⟨by with_unfolding_all rfl, by with_unfolding_all rfl⟩

theorem alias_hard_miss_vs_soft_miss_witness :
    (∃ a m, HydraModeler.hydrate (Registry.make none none)
      ([[("A.code", .vInt 1)]] : List Row) (.mk "Z" none none []) =
      .error (.schemaAliasMissing a m)) ∧
    (cAssocW.associationType = .hasMany →
      hydrateChildren cRegW ⟨"C", ["code"], "code"⟩ "C"
        [("C.code", .vStr "1"), ("P.code", .vNull)]
        ([[("C.code", .vStr "1"), ("P.code", .vNull)]] : List Row) []
        [.mk "P" none none []] [] =
      hydrateChildren cRegW ⟨"C", ["code"], "code"⟩ "C"
        [("C.code", .vStr "1"), ("P.code", .vNull)]
        ([[("C.code", .vStr "1"), ("P.code", .vNull)]] : List Row) [] []
        (mapSet [] "P" (.arr []))) ∧
    ((cAssocW.associationType = .belongsTo ∨ cAssocW.associationType = .hasOne) →
      hydrateChildren cRegW ⟨"C", ["code"], "code"⟩ "C"
        [("C.code", .vStr "1"), ("P.code", .vNull)]
        ([[("C.code", .vStr "1"), ("P.code", .vNull)]] : List Row) []
        [.mk "P" none none []] [] =
      hydrateChildren cRegW ⟨"C", ["code"], "code"⟩ "C"
        [("C.code", .vStr "1"), ("P.code", .vNull)]
        ([[("C.code", .vStr "1"), ("P.code", .vNull)]] : List Row) [] [] []) :=
  alias_hard_miss_vs_soft_miss
    (Registry.make none none) [[("A.code", .vInt 1)]] (.mk "Z" none none [])
    [("A.code", .vInt 1)] [] (.mk "Z" none none [])
    rfl (by with_unfolding_all rfl)
    (by simp [SchemaNode.nodesOf, nodesOfList])
    (by with_unfolding_all rfl)
    cRegW ⟨"C", ["code"], "code"⟩ "C" [("C.code", .vStr "1"), ("P.code", .vNull)]
    [[("C.code", .vStr "1"), ("P.code", .vNull)]] [] (.mk "P" none none []) [] []
    cAssocW "P"
    (by with_unfolding_all rfl) (by with_unfolding_all rfl)
    (by with_unfolding_all rfl) rfl

/-- In any grouping produced by `mapGroupFold` from an empty accumulator, a group
under key `v` is exactly the guarded-input-order filter of the rows by value `v`,
and its key passed the guard. -/
theorem mapGroupFold_mem_eq_filter (g : Value → Bool) (col : String)
    (rows : List Row) {v : Value} {gr : List Row}
    (hmem : (v, gr) ∈ mapGroupFold g col rows []) :
    gr = rows.filter (fun r => r.get col = v) ∧ g v = true := by
  have hkeys := mapGroupFold_keys g col rows []
  simp only [List.map_nil, List.nil_append] at hkeys
  have hnd : ((mapGroupFold g col rows []).map Prod.fst).Nodup := by
    rw [hkeys]
    exact dedupFirstAux_nodup _ _
  have halook := alook_of_mem_nodup hmem hnd
  by_cases hg : g v = true
  · have := mapGroupFold_alook_of_guard g col v hg rows []
    rw [halook] at this
    simp only [alook] at this
    by_cases hemp : rows.filter (fun r => decide (r.get col = v)) = []
    · rw [if_pos hemp] at this
      cases this
    · rw [if_neg hemp] at this
      exact ⟨Option.some.inj this, hg⟩
  · have := mapGroupFold_alook_of_not_guard g col v (Bool.eq_false_iff.mpr hg) rows []
    rw [halook] at this
    simp only [alook] at this
    cases this

/-- C2: for a `BelongsToMany` child with a resolved join model, the kept rows are
exactly those where the join alias's parent-foreign-key column strictly equals
the parent's source-key value, the child's target-key column is non-nullish, and
the join alias's child-foreign-key column is nullish or equal to that target-key
value; survivors are grouped by target-key value in first-appearance order (one
group per distinct value, so duplicate join rows for the same (parent, child)
pair collapse to one entry), each group being the input-order filter of the
survivors by its value, and the child's plan is the array of those groups. -/
theorem btm_filter_and_grouping
    (reg : Registry) (model : ModelR) (aliasStr : String) (row : Row)
    (rows : List Row) (child : SchemaNode) (assoc : AssocR) (thr : Through)
    (outKey childAlias childTK childCol pFK cFK joinAlias : String)
    (parentPkValue : Value) (relevant : List Row)
    (hhk : rows.any (fun r => r.keys.any
      (fun k => strIsPrefixOf (effAlias child ++ ".") k)) = true)
    (hassoc : reg.getAssociation? model.name
      (strOr ((child.alias?).getD "") child.model) = some assoc)
    (hty : assoc.associationType = .belongsToMany)
    (hthr : assoc.through? = some thr)
    (hca : childAlias = effAlias child)
    (htk : childTK = strOr assoc.targetKey assoc.targetPrimaryKey)
    (hcc : childCol = childAlias ++ "." ++ childTK)
    (hja : joinAlias = thr.alias?.getD thr.modelName)
    (hpfk : pFK = strOr thr.foreignKey (assoc.sourceName ++ reg.defaultForeignKeySuffix))
    (hcfk : cFK = strOr thr.otherKey (assoc.targetName ++ reg.defaultForeignKeySuffix))
    (hpv : parentPkValue =
      row.get (aliasStr ++ "." ++ strOr assoc.sourceKey assoc.sourcePrimaryKey))
    (houtk : outKey = match child.alias? with
      | none => assoc.as
      | some _ => childAlias)
    (hrel : relevant =
      btmFilter rows joinAlias pFK cFK childAlias childTK parentPkValue) :
    (relevant = rows.filter (fun r =>
      r.get (joinAlias ++ "." ++ pFK) = parentPkValue ∧
      (r.get childCol).isNullish = false ∧
      ((r.get (joinAlias ++ "." ++ cFK)).isNullish = true ∨
        r.get (joinAlias ++ "." ++ cFK) = r.get childCol))) ∧
    ((mapGroupFold (fun _ => true) childCol relevant []).map Prod.fst =
      dedupFirst (relevant.map (fun r => r.get childCol))) ∧
    (∀ v gr, (v, gr) ∈ mapGroupFold (fun _ => true) childCol relevant [] →
      gr = relevant.filter (fun r => r.get childCol = v)) ∧
    (planChild reg model aliasStr row rows child =
      .many outKey
        ((mapGroupFold (fun _ => true) childCol relevant []).map (fun p => p.2))) := by
  subst hca htk hcc hja hpfk hcfk hpv hrel
  refine ⟨?_, ?_, ?_, ?_⟩
  · unfold btmFilter
    refine List.filter_congr ?_
    intro r _
    by_cases h1 : r.get ((thr.alias?.getD thr.modelName) ++ "." ++
        strOr thr.foreignKey (assoc.sourceName ++ reg.defaultForeignKeySuffix)) =
        row.get (aliasStr ++ "." ++ strOr assoc.sourceKey assoc.sourcePrimaryKey)
    · rw [if_neg (by simpa using h1)]
      by_cases h2 : (r.get (effAlias child ++ "." ++
          strOr assoc.targetKey assoc.targetPrimaryKey)).isNullish = true
      · rw [if_pos h2]
        simp [h1, h2]
      · rw [if_neg h2]
        simp only [Bool.eq_false_iff.mpr h2]
        simp [h1, Bool.eq_false_iff.mpr h2]
        rfl
    · rw [if_pos (by simpa using h1)]
      simp [h1]
  · have hkeys := mapGroupFold_keys (fun _ => true)
      (effAlias child ++ "." ++ strOr assoc.targetKey assoc.targetPrimaryKey)
      (btmFilter rows (thr.alias?.getD thr.modelName)
        (strOr thr.foreignKey (assoc.sourceName ++ reg.defaultForeignKeySuffix))
        (strOr thr.otherKey (assoc.targetName ++ reg.defaultForeignKeySuffix))
        (effAlias child) (strOr assoc.targetKey assoc.targetPrimaryKey)
        (row.get (aliasStr ++ "." ++ strOr assoc.sourceKey assoc.sourcePrimaryKey))) []
    simp only [List.map_nil, List.nil_append, List.filter_true] at hkeys
    exact hkeys
  · intro v gr hmem
    exact (mapGroupFold_mem_eq_filter _ _ _ hmem).1
  · unfold planChild
    dsimp only
    rw [hhk]
    simp only [Bool.not_true, Bool.false_eq_true, if_false]
    rw [hassoc]
    dsimp only
    rw [hty]
    dsimp only
    rw [hthr]
    dsimp only
    rw [houtk]

theorem btm_filter_and_grouping_witness :
    (mRelW = mRowsW.filter (fun r =>
      r.get ("Enrollment" ++ "." ++ "StudentCode") = Value.vStr "S1" ∧
      (r.get "Courses.code").isNullish = false ∧
      ((r.get ("Enrollment" ++ "." ++ "CourseCode")).isNullish = true ∨
        r.get ("Enrollment" ++ "." ++ "CourseCode") = r.get "Courses.code"))) ∧
    ((mapGroupFold (fun _ => true) "Courses.code" mRelW []).map Prod.fst =
      dedupFirst (mRelW.map (fun r => r.get "Courses.code"))) ∧
    (∀ v gr, (v, gr) ∈ mapGroupFold (fun _ => true) "Courses.code" mRelW [] →
      gr = mRelW.filter (fun r => r.get "Courses.code" = v)) ∧
    (planChild mRegW ⟨"Student", ["code"], "code"⟩ "Student"
      [("Student.code", .vStr "S1"), ("Enrollment.StudentCode", .vStr "S1"),
       ("Enrollment.CourseCode", .vStr "K1"), ("Courses.code", .vStr "K1")]
      mRowsW mChildW =
      .many "Courses"
        ((mapGroupFold (fun _ => true) "Courses.code" mRelW []).map (fun p => p.2))) :=
  btm_filter_and_grouping mRegW ⟨"Student", ["code"], "code"⟩ "Student"
    [("Student.code", .vStr "S1"), ("Enrollment.StudentCode", .vStr "S1"),
     ("Enrollment.CourseCode", .vStr "K1"), ("Courses.code", .vStr "K1")]
    mRowsW mChildW mAssocW
    { modelName := "Enrollment", alias? := none,
      foreignKey := "StudentCode", otherKey := "CourseCode" }
    "Courses" "Courses" "code" "Courses.code" "StudentCode" "CourseCode"
    "Enrollment" (Value.vStr "S1") mRelW
    (by with_unfolding_all rfl) rfl rfl rfl rfl rfl rfl rfl rfl rfl
    (by with_unfolding_all rfl) rfl rfl

theorem alook_append_single_ne {κ α : Type} [DecidableEq κ] (h : List (κ × α))
    (n : κ) (v : α) (k : κ) (hk : k ≠ n) :
    alook (h ++ [(n, v)]) k = alook h k := by
  rw [alook_append]
  rcases hl : alook h k with _ | u <;> simp [alook, hk, Ne.symm hk, hl]

theorem alook_none_of_not_mem {κ α : Type} [DecidableEq κ] {h : List (κ × α)}
    {k : κ} (hk : k ∉ h.map Prod.fst) : alook h k = none := by
  rw [alook_none_iff_not_any]
  rw [Bool.eq_false_iff]
  intro hany
  exact hk ((any_fst_iff_mem h k).1 hany)

theorem alook_append_fresh {κ α : Type} [DecidableEq κ] (h : List (κ × α)) (n : κ)
    (v : α) (hfresh : n ∉ h.map Prod.fst) :
    alook (h ++ [(n, v)]) n = some v := by
  rw [alook_append, alook_none_of_not_mem hfresh]
  simp [alook]

theorem snds_updateEntry {κ α : Type} [DecidableEq κ] (l : List (κ × α)) (k : κ)
    (v : α) :
    ∀ x ∈ (updateEntry l k v).map Prod.snd, x ∈ l.map Prod.snd ∨ x = v := by
  induction l with
  | nil => simp [updateEntry]
  | cons p t ih =>
    obtain ⟨k0, v0⟩ := p
    intro x hx
    by_cases h0 : k0 = k
    · subst h0
      rcases (by simpa [updateEntry] using hx : x = v ∨
          x ∈ (updateEntry t k0 v).map Prod.snd) with h | h
      · exact Or.inr h
      · rcases ih x h with h' | h'
        · exact Or.inl (by simp [h'])
        · exact Or.inr h'
    · rcases (by simpa [updateEntry, h0] using hx : x = v0 ∨
          x ∈ (updateEntry t k v).map Prod.snd) with h | h
      · exact Or.inl (by simp [h])
      · rcases ih x h with h' | h'
        · exact Or.inl (by simp [h'])
        · exact Or.inr h'

theorem snds_mapSet {κ α : Type} [DecidableEq κ] (l : List (κ × α)) (k : κ) (v : α) :
    ∀ x ∈ (mapSet l k v).map Prod.snd, x ∈ l.map Prod.snd ∨ x = v := by
  unfold mapSet
  by_cases hany : l.any (fun p => p.1 = k) = true
  · rw [if_pos hany]
    exact snds_updateEntry l k v
  · rw [if_neg hany]
    intro x hx
    rcases (by simpa using hx : x ∈ l.map Prod.snd ∨ x = v) with h | h
    · exact Or.inl h
    · exact Or.inr h

theorem keys_mapSet_sub {κ α : Type} [DecidableEq κ] (l : List (κ × α)) (k : κ)
    (v : α) : ∀ x ∈ (mapSet l k v).map Prod.fst, x ∈ l.map Prod.fst ∨ x = k := by
  intro x hx
  rw [keys_mapSet] at hx
  by_cases hmem : k ∈ l.map Prod.fst
  · rw [if_pos hmem] at hx
    exact Or.inl hx
  · rw [if_neg hmem] at hx
    rcases List.mem_append.1 hx with h | h
    · exact Or.inl h
    · exact Or.inr (by simpa using h)

end Hydra

namespace Hydra.RefW

/-- C10: registering a model under a name already present in the modeler's
`_models` map, or an association whose `as` name is already present in the
source model's association map, leaves the whole object graph unchanged (so
every existing registry entry is untouched), and both operations are total, so
no error is raised. -/
theorem duplicate_registration_is_noop (w : World) (md : Modeler) (name : String)
    (attrs : List AttrDecl) (pk? : Option String) (src : String) (a : AssocR)
    (mm : List (String × Nat)) (iref : Nat) (im : List (String × Nat))
    (hmm : heapGet w.modelsMapHeap md.modelsRef = some mm)
    (hdupM : (alook mm name).isSome = true)
    (houter : alook ((heapGet w.outerMapHeap md.assocsRef).getD []) src = some iref)
    (him : heapGet w.innerMapHeap iref = some im)
    (hdupA : (alook im a.as).isSome = true) :
    addModelOp w md name attrs pk? = w ∧ associatePushOp w md src a = w := by
  constructor
  · unfold addModelOp
    rw [hmm]
    dsimp only [Option.getD_some]
    rw [if_pos hdupM]
  · unfold associatePushOp
    dsimp only
    rw [houter]
    dsimp only
    rw [him]
    dsimp only [Option.getD_some]
    rw [if_pos hdupA]

theorem duplicate_registration_is_noop_witness :
    addModelOp
      { nextId := 3,
        modelHeap := [(0, { name := "M", attrs := ["code"], primaryKey := "code" })],
        assocHeap := [], modelsMapHeap := [(1, [("M", 0)])],
        outerMapHeap := [(2, [("M", 10)])], innerMapHeap := [(10, [("A", 11)])] }
      { modelsRef := 1, assocsRef := 2, defaultPrimaryKey := "code",
        defaultForeignKeySuffix := "Code" } "M" [] none =
      { nextId := 3,
        modelHeap := [(0, { name := "M", attrs := ["code"], primaryKey := "code" })],
        assocHeap := [], modelsMapHeap := [(1, [("M", 0)])],
        outerMapHeap := [(2, [("M", 10)])], innerMapHeap := [(10, [("A", 11)])] } ∧
    associatePushOp
      { nextId := 3,
        modelHeap := [(0, { name := "M", attrs := ["code"], primaryKey := "code" })],
        assocHeap := [], modelsMapHeap := [(1, [("M", 0)])],
        outerMapHeap := [(2, [("M", 10)])], innerMapHeap := [(10, [("A", 11)])] }
      { modelsRef := 1, assocsRef := 2, defaultPrimaryKey := "code",
        defaultForeignKeySuffix := "Code" } "M" cAssocA =
      { nextId := 3,
        modelHeap := [(0, { name := "M", attrs := ["code"], primaryKey := "code" })],
        assocHeap := [], modelsMapHeap := [(1, [("M", 0)])],
        outerMapHeap := [(2, [("M", 10)])], innerMapHeap := [(10, [("A", 11)])] } :=
  duplicate_registration_is_noop
    { nextId := 3,
      modelHeap := [(0, { name := "M", attrs := ["code"], primaryKey := "code" })],
      assocHeap := [], modelsMapHeap := [(1, [("M", 0)])],
      outerMapHeap := [(2, [("M", 10)])], innerMapHeap := [(10, [("A", 11)])] }
    { modelsRef := 1, assocsRef := 2, defaultPrimaryKey := "code",
      defaultForeignKeySuffix := "Code" } "M" [] none "M" cAssocA
    [("M", 0)] 10 [("A", 11)] rfl rfl rfl rfl rfl

end Hydra.RefW

namespace Hydra
end Hydra




namespace Hydra.RefW

theorem extends_refl (w : World) : Extends w w :=
  ⟨le_refl _, fun _ _ => rfl, fun _ _ => rfl, fun _ _ => rfl, fun _ _ => rfl,
   fun _ _ => rfl⟩

theorem extends_trans {w1 w2 w3 : World} (h12 : Extends w1 w2) (h23 : Extends w2 w3) :
    Extends w1 w3 := by
  obtain ⟨a1, b1, c1, d1, e1, f1⟩ := h12
  obtain ⟨a2, b2, c2, d2, e2, f2⟩ := h23
  exact ⟨le_trans a1 a2,
    fun k hk => (b2 k (lt_of_lt_of_le hk a1)).trans (b1 k hk),
    fun k hk => (c2 k (lt_of_lt_of_le hk a1)).trans (c1 k hk),
    fun k hk => (d2 k (lt_of_lt_of_le hk a1)).trans (d1 k hk),
    fun k hk => (e2 k (lt_of_lt_of_le hk a1)).trans (e1 k hk),
    fun k hk => (f2 k (lt_of_lt_of_le hk a1)).trans (f1 k hk)⟩

theorem preserves_refl (w : World) : Preserves w w :=
  ⟨fun _ _ h => h, fun _ _ h => h, fun _ _ h => h, fun _ _ h => h, fun _ _ h => h⟩

theorem preserves_trans {w1 w2 w3 : World} (h12 : Preserves w1 w2)
    (h23 : Preserves w2 w3) : Preserves w1 w3 := by
  obtain ⟨a1, b1, c1, d1, e1⟩ := h12
  obtain ⟨a2, b2, c2, d2, e2⟩ := h23
  exact ⟨fun k v h => a2 k v (a1 k v h), fun k v h => b2 k v (b1 k v h),
    fun k v h => c2 k v (c1 k v h), fun k v h => d2 k v (d1 k v h),
    fun k v h => e2 k v (e1 k v h)⟩

theorem fresh_not_mem {h : List (Nat × α)} {n : Nat}
    (hdom : ∀ k ∈ h.map Prod.fst, k < n) : n ∉ h.map Prod.fst :=
  fun hmem => absurd (hdom n hmem) (lt_irrefl n)

theorem append_dom_lt {h : List (Nat × α)} {n : Nat} {v : α}
    (hdom : ∀ k ∈ h.map Prod.fst, k < n) :
    ∀ k ∈ (h ++ [(n, v)]).map Prod.fst, k < n + 1 := by
  intro k hk
  rw [List.map_append] at hk
  rcases List.mem_append.1 hk with hmem | hmem
  · exact lt_trans (hdom k hmem) (Nat.lt_succ_self n)
  · simp at hmem
    omega

theorem dom_lt_succ {h : List (Nat × α)} {n : Nat}
    (hdom : ∀ k ∈ h.map Prod.fst, k < n) :
    ∀ k ∈ h.map Prod.fst, k < n + 1 :=
  fun k hk => lt_trans (hdom k hk) (Nat.lt_succ_self n)

theorem heap_append_agree {h : List (Nat × α)} {n m : Nat} {v : α}
    (hnm : n ≤ m) : ∀ k, k < n → alook (h ++ [(m, v)]) k = alook h k :=
  fun k hk => alook_append_single_ne h m v k (by omega)

theorem heap_append_some {h : List (Nat × α)} {m : Nat} {v : α} :
    ∀ k u, alook h k = some u → alook (h ++ [(m, v)]) k = some u := by
  intro k u hu
  rw [alook_append, hu]
  rfl

theorem allocModel_facts (w : World) (m : ModelR) (hdom : World.wfDom w) :
    Extends w (w.allocModel m).1 ∧ Preserves w (w.allocModel m).1 ∧
    World.wfDom (w.allocModel m).1 ∧
    (w.allocModel m).1.nextId = w.nextId + 1 ∧ (w.allocModel m).2 = w.nextId ∧
    heapGet (w.allocModel m).1.modelHeap w.nextId = some m := by
  obtain ⟨d1, d2, d3, d4, d5⟩ := hdom
  refine ⟨⟨Nat.le_succ _, heap_append_agree (le_refl _), fun _ _ => rfl,
      fun _ _ => rfl, fun _ _ => rfl, fun _ _ => rfl⟩,
    ⟨heap_append_some, fun _ _ h => h, fun _ _ h => h, fun _ _ h => h,
      fun _ _ h => h⟩,
    ⟨append_dom_lt d1, dom_lt_succ d2, dom_lt_succ d3, dom_lt_succ d4,
      dom_lt_succ d5⟩,
    rfl, rfl, alook_append_fresh _ _ _ (fresh_not_mem d1)⟩

theorem allocAssoc_facts (w : World) (m : AssocR) (hdom : World.wfDom w) :
    Extends w (w.allocAssoc m).1 ∧ Preserves w (w.allocAssoc m).1 ∧
    World.wfDom (w.allocAssoc m).1 ∧
    (w.allocAssoc m).1.nextId = w.nextId + 1 ∧ (w.allocAssoc m).2 = w.nextId ∧
    heapGet (w.allocAssoc m).1.assocHeap w.nextId = some m := by
  obtain ⟨d1, d2, d3, d4, d5⟩ := hdom
  refine ⟨⟨Nat.le_succ _, fun _ _ => rfl, heap_append_agree (le_refl _),
      fun _ _ => rfl, fun _ _ => rfl, fun _ _ => rfl⟩,
    ⟨fun _ _ h => h, heap_append_some, fun _ _ h => h, fun _ _ h => h,
      fun _ _ h => h⟩,
    ⟨dom_lt_succ d1, append_dom_lt d2, dom_lt_succ d3, dom_lt_succ d4,
      dom_lt_succ d5⟩,
    rfl, rfl, alook_append_fresh _ _ _ (fresh_not_mem d2)⟩

theorem allocModelsMap_facts (w : World) (m : List (String × Nat))
    (hdom : World.wfDom w) :
    Extends w (w.allocModelsMap m).1 ∧ Preserves w (w.allocModelsMap m).1 ∧
    World.wfDom (w.allocModelsMap m).1 ∧
    (w.allocModelsMap m).1.nextId = w.nextId + 1 ∧
    (w.allocModelsMap m).2 = w.nextId ∧
    heapGet (w.allocModelsMap m).1.modelsMapHeap w.nextId = some m := by
  obtain ⟨d1, d2, d3, d4, d5⟩ := hdom
  refine ⟨⟨Nat.le_succ _, fun _ _ => rfl, fun _ _ => rfl,
      heap_append_agree (le_refl _), fun _ _ => rfl, fun _ _ => rfl⟩,
    ⟨fun _ _ h => h, fun _ _ h => h, heap_append_some, fun _ _ h => h,
      fun _ _ h => h⟩,
    ⟨dom_lt_succ d1, dom_lt_succ d2, append_dom_lt d3, dom_lt_succ d4,
      dom_lt_succ d5⟩,
    rfl, rfl, alook_append_fresh _ _ _ (fresh_not_mem d3)⟩

theorem allocOuter_facts (w : World) (m : List (String × Nat))
    (hdom : World.wfDom w) :
    Extends w (w.allocOuter m).1 ∧ Preserves w (w.allocOuter m).1 ∧
    World.wfDom (w.allocOuter m).1 ∧
    (w.allocOuter m).1.nextId = w.nextId + 1 ∧ (w.allocOuter m).2 = w.nextId ∧
    heapGet (w.allocOuter m).1.outerMapHeap w.nextId = some m := by
  obtain ⟨d1, d2, d3, d4, d5⟩ := hdom
  refine ⟨⟨Nat.le_succ _, fun _ _ => rfl, fun _ _ => rfl, fun _ _ => rfl,
      heap_append_agree (le_refl _), fun _ _ => rfl⟩,
    ⟨fun _ _ h => h, fun _ _ h => h, fun _ _ h => h, heap_append_some,
      fun _ _ h => h⟩,
    ⟨dom_lt_succ d1, dom_lt_succ d2, dom_lt_succ d3, append_dom_lt d4,
      dom_lt_succ d5⟩,
    rfl, rfl, alook_append_fresh _ _ _ (fresh_not_mem d4)⟩

theorem allocInner_facts (w : World) (m : List (String × Nat))
    (hdom : World.wfDom w) :
    Extends w (w.allocInner m).1 ∧ Preserves w (w.allocInner m).1 ∧
    World.wfDom (w.allocInner m).1 ∧
    (w.allocInner m).1.nextId = w.nextId + 1 ∧ (w.allocInner m).2 = w.nextId ∧
    heapGet (w.allocInner m).1.innerMapHeap w.nextId = some m := by
  obtain ⟨d1, d2, d3, d4, d5⟩ := hdom
  refine ⟨⟨Nat.le_succ _, fun _ _ => rfl, fun _ _ => rfl, fun _ _ => rfl,
      fun _ _ => rfl, heap_append_agree (le_refl _)⟩,
    ⟨fun _ _ h => h, fun _ _ h => h, fun _ _ h => h, fun _ _ h => h,
      heap_append_some⟩,
    ⟨dom_lt_succ d1, dom_lt_succ d2, dom_lt_succ d3, dom_lt_succ d4,
      append_dom_lt d5⟩,
    rfl, rfl, alook_append_fresh _ _ _ (fresh_not_mem d5)⟩


theorem mem_updateEntry_sub {κ α : Type} [DecidableEq κ] (l : List (κ × α)) (k : κ)
    (v : α) : ∀ p ∈ updateEntry l k v, p ∈ l ∨ p = (k, v) := by
  induction l with
  | nil => simp [updateEntry]
  | cons q t ih =>
    obtain ⟨k0, v0⟩ := q
    intro p hp
    by_cases h0 : k0 = k
    · subst h0
      rcases (by simpa [updateEntry] using hp : p = (k0, v) ∨
          p ∈ updateEntry t k0 v) with h | h
      · exact Or.inr h
      · rcases ih p h with h1 | h1
        · exact Or.inl (by simp [h1])
        · exact Or.inr h1
    · rcases (by simpa [updateEntry, h0] using hp : p = (k0, v0) ∨
          p ∈ updateEntry t k v) with h | h
      · exact Or.inl (by simp [h])
      · rcases ih p h with h1 | h1
        · exact Or.inl (by simp [h1])
        · exact Or.inr h1

theorem mem_mapSet_sub {κ α : Type} [DecidableEq κ] (l : List (κ × α)) (k : κ)
    (v : α) : ∀ p ∈ mapSet l k v, p ∈ l ∨ p = (k, v) := by
  unfold mapSet
  by_cases hany : l.any (fun p => p.1 = k) = true
  · rw [if_pos hany]
    exact mem_updateEntry_sub l k v
  · rw [if_neg hany]
    intro p hp
    rcases List.mem_append.1 hp with h | h
    · exact Or.inl h
    · exact Or.inr (by simpa using h)

theorem cloneModelsPhase_facts :
    ∀ (l : List (String × Nat)) (w : World), World.wfDom w →
    Extends w (cloneModelsPhase w l).1 ∧ Preserves w (cloneModelsPhase w l).1 ∧
    World.wfDom (cloneModelsPhase w l).1 ∧
    w.nextId ≤ (cloneModelsPhase w l).1.nextId ∧
    (∀ r ∈ ((cloneModelsPhase w l).2.1).map Prod.snd,
      w.nextId ≤ r ∧ r < (cloneModelsPhase w l).1.nextId) ∧
    (∀ p ∈ (cloneModelsPhase w l).2.2,
      w.nextId ≤ p.2 ∧ p.2 < (cloneModelsPhase w l).1.nextId ∧
      heapGet (cloneModelsPhase w l).1.innerMapHeap p.2 = some []) := by
  intro l
  induction l with
  | nil =>
    intro w hdom
    exact ⟨extends_refl w, preserves_refl w, hdom, le_refl _,
      by intro r hr; simp [cloneModelsPhase] at hr,
      by intro p hp; simp [cloneModelsPhase] at hp⟩
  | cons q rest ih =>
    obtain ⟨name, mref⟩ := q
    intro w hdom
    obtain ⟨hextA, hpresA, hdomA, hnidA, hrA, _⟩ :=
      allocModel_facts w
        (cloneModelRecord ((heapGet w.modelHeap mref).getD dummyModel)) hdom
    obtain ⟨hextB, hpresB, hdomB, hnidB, hiB, hreadB⟩ :=
      allocInner_facts
        (w.allocModel
          (cloneModelRecord ((heapGet w.modelHeap mref).getD dummyModel))).1 [] hdomA
    obtain ⟨hextC, hpresC, hdomC, hnidC, hmmC, houterC⟩ :=
      ih ((w.allocModel
          (cloneModelRecord ((heapGet w.modelHeap mref).getD dummyModel))).1.allocInner
            []).1 hdomB
    have hgoal : cloneModelsPhase w ((name, mref) :: rest) =
        ((cloneModelsPhase
            ((w.allocModel
              (cloneModelRecord ((heapGet w.modelHeap mref).getD
                dummyModel))).1.allocInner []).1 rest).1,
         (name, w.nextId) ::
           (cloneModelsPhase
             ((w.allocModel
               (cloneModelRecord ((heapGet w.modelHeap mref).getD
                 dummyModel))).1.allocInner []).1 rest).2.1,
         (name,
           (w.allocModel
             (cloneModelRecord ((heapGet w.modelHeap mref).getD
               dummyModel))).1.nextId) ::
           (cloneModelsPhase
             ((w.allocModel
               (cloneModelRecord ((heapGet w.modelHeap mref).getD
                 dummyModel))).1.allocInner []).1 rest).2.2) := rfl
    rw [hgoal]
    dsimp only
    refine ⟨extends_trans (extends_trans hextA hextB) hextC,
      preserves_trans (preserves_trans hpresA hpresB) hpresC, hdomC,
      le_trans hextA.1 (le_trans hextB.1 hextC.1), ?_, ?_⟩
    · intro r hr
      rcases List.mem_cons.1 (by simpa using hr :
          r ∈ w.nextId :: ((cloneModelsPhase _ rest).2.1).map Prod.snd) with h | h
      · subst h
        refine ⟨le_refl _, ?_⟩
        have h1 : w.nextId <
            (w.allocModel
              (cloneModelRecord ((heapGet w.modelHeap mref).getD
                dummyModel))).1.nextId := by
          rw [hnidA]; omega
        exact lt_of_lt_of_le h1 (le_trans hextB.1 hextC.1)
      · obtain ⟨h1, h2⟩ := hmmC r h
        exact ⟨le_trans hextA.1 (le_trans hextB.1 h1), h2⟩
    · intro p hp
      rcases List.mem_cons.1 hp with h | h
      · subst h
        refine ⟨le_trans hextA.1 (le_refl _), ?_, ?_⟩
        · exact lt_of_lt_of_le (by rw [hnidB]; omega) hextC.1
        · exact hpresC.2.2.2.2 _ _ hreadB
      · obtain ⟨h1, h2, h3⟩ := houterC p h
        exact ⟨le_trans hextA.1 (le_trans hextB.1 h1), h2, h3⟩


theorem cloneAssocEntries_facts :
    ∀ (l : List (String × Nat)) (w : World) (newMM outer : List (String × Nat))
      (srcName : String) (w1 : World) (entries : List (String × Nat)),
    World.wfDom w →
    cloneAssocEntries w newMM outer srcName l = .ok (w1, entries) →
    Extends w w1 ∧ Preserves w w1 ∧ World.wfDom w1 ∧ w.nextId ≤ w1.nextId ∧
    (∀ r ∈ entries.map Prod.snd, w.nextId ≤ r ∧ r < w1.nextId) := by
  intro l
  induction l with
  | nil =>
    intro w newMM outer srcName w1 entries hdom h
    rw [cloneAssocEntries] at h
    injection h with h1
    injection h1 with ha hb
    subst ha
    subst hb
    exact ⟨extends_refl w, preserves_refl w, hdom, le_refl _, by simp⟩
  | cons q rest ih =>
    obtain ⟨as0, aref⟩ := q
    intro w newMM outer srcName w1 entries hdom h
    rw [cloneAssocEntries] at h
    dsimp only at h
    split at h
    · cases h
    rename_i s hs
    split at h
    · cases h
    rename_i t ht
    split at h
    · cases h
    rename_i thr hthr
    split at h
    · cases h
    rename_i w2 restEntries hrec
    injection h with h1
    injection h1 with ha hb
    subst ha
    subst hb
    obtain ⟨hextA, hpresA, hdomA, hnidA, harefA, _⟩ :=
      allocAssoc_facts w _ hdom
    obtain ⟨hextR, hpresR, hdomR, hnidR, hentsR⟩ :=
      ih _ newMM outer srcName _ restEntries hdomA hrec
    refine ⟨extends_trans hextA hextR, preserves_trans hpresA hpresR, hdomR,
      le_trans hextA.1 hextR.1, ?_⟩
    intro r hr
    rcases List.mem_cons.1 (by simpa using hr :
        r ∈ w.nextId :: restEntries.map Prod.snd) with h1 | h1
    · subst h1
      refine ⟨le_refl _, ?_⟩
      exact lt_of_lt_of_le (by rw [hnidA]; omega) hextR.1
    · obtain ⟨hb1, hb2⟩ := hentsR r h1
      exact ⟨le_trans hextA.1 hb1, hb2⟩


theorem cloneAssocsPhase_facts :
    ∀ (l : List (String × Nat)) (w : World) (newMM outer : List (String × Nat))
      (base : Nat) (w2 : World) (outerF : List (String × Nat)),
    World.wfDom w → base ≤ w.nextId →
    (∀ p ∈ outer, base ≤ p.2 ∧ p.2 < w.nextId ∧
      ∃ content, heapGet w.innerMapHeap p.2 = some content ∧
        ∀ x ∈ content.map Prod.snd, base ≤ x ∧ x < w.nextId) →
    cloneAssocsPhase w newMM l outer = .ok (w2, outerF) →
    Extends w w2 ∧ Preserves w w2 ∧ World.wfDom w2 ∧ w.nextId ≤ w2.nextId ∧
    (∀ p ∈ outerF, base ≤ p.2 ∧ p.2 < w2.nextId ∧
      ∃ content, heapGet w2.innerMapHeap p.2 = some content ∧
        ∀ x ∈ content.map Prod.snd, base ≤ x ∧ x < w2.nextId) := by
  intro l
  induction l with
  | nil =>
    intro w newMM outer base w2 outerF hdom hbase houter h
    rw [cloneAssocsPhase] at h
    injection h with h1
    injection h1 with ha hb
    subst ha
    subst hb
    exact ⟨extends_refl w, preserves_refl w, hdom, le_refl _, houter⟩
  | cons q rest ih =>
    obtain ⟨srcName, irefSrc⟩ := q
    intro w newMM outer base w2 outerF hdom hbase houter h
    rw [cloneAssocsPhase] at h
    dsimp only at h
    split at h
    · cases h
    rename_i w1 entries hrec
    obtain ⟨hextE, hpresE, hdomE, hnidE, hentsE⟩ :=
      cloneAssocEntries_facts _ w newMM outer srcName w1 entries hdom hrec
    obtain ⟨hextI, hpresI, hdomI, hnidI, hirefI, hreadI⟩ :=
      allocInner_facts w1 entries hdomE
    have hbaseI : base ≤ ((w1.allocInner entries).1).nextId :=
      le_trans hbase (le_trans hextE.1 hextI.1)
    have houterI : ∀ p ∈ mapSet outer srcName w1.nextId,
        base ≤ p.2 ∧ p.2 < ((w1.allocInner entries).1).nextId ∧
        ∃ content,
          heapGet ((w1.allocInner entries).1).innerMapHeap p.2 = some content ∧
          ∀ x ∈ content.map Prod.snd,
            base ≤ x ∧ x < ((w1.allocInner entries).1).nextId := by
      intro p hp
      rcases mem_mapSet_sub outer srcName w1.nextId p hp with hmem | hmem
      · obtain ⟨hb1, hb2, content, hc1, hc2⟩ := houter p hmem
        refine ⟨hb1, lt_of_lt_of_le hb2 (le_trans hextE.1 hextI.1), content,
          hpresI.2.2.2.2 _ _ (hpresE.2.2.2.2 _ _ hc1), ?_⟩
        intro x hx
        obtain ⟨hx1, hx2⟩ := hc2 x hx
        exact ⟨hx1, lt_of_lt_of_le hx2 (le_trans hextE.1 hextI.1)⟩
      · subst hmem
        refine ⟨le_trans hbase hextE.1, by rw [hnidI]; omega, entries, hreadI, ?_⟩
        intro x hx
        obtain ⟨hx1, hx2⟩ := hentsE x hx
        exact ⟨le_trans hbase hx1, lt_of_lt_of_le hx2 hextI.1⟩
    obtain ⟨hextR, hpresR, hdomR, hnidR, houterR⟩ :=
      ih ((w1.allocInner entries).1) newMM (mapSet outer srcName w1.nextId) base
        w2 outerF hdomI hbaseI houterI h
    exact ⟨extends_trans (extends_trans hextE hextI) hextR,
      preserves_trans (preserves_trans hpresE hpresI) hpresR, hdomR,
      le_trans hextE.1 (le_trans hextI.1 hextR.1), houterR⟩


theorem cloneOp_facts (w : World) (src : Modeler) (w' : World) (c : Modeler)
    (hdom : World.wfDom w)
    (hclone : cloneOp w src = .ok (w', c)) :
    Extends w w' ∧ World.wfDom w' ∧ w.nextId ≤ w'.nextId ∧
    (w.nextId ≤ c.modelsRef ∧ c.modelsRef < w'.nextId) ∧
    (w.nextId ≤ c.assocsRef ∧ c.assocsRef < w'.nextId) ∧
    (∀ r ∈ modelRefsOf w' c, w.nextId ≤ r ∧ r < w'.nextId) ∧
    (∀ r ∈ innerRefsOf w' c, w.nextId ≤ r ∧ r < w'.nextId) ∧
    (∀ r ∈ assocRefsOf w' c, w.nextId ≤ r ∧ r < w'.nextId) := by
  obtain ⟨hextP, hpresP, hdomP, hnidP, hmmP, houterP⟩ :=
    cloneModelsPhase_facts ((heapGet w.modelsMapHeap src.modelsRef).getD []) w hdom
  rw [cloneOp] at hclone
  dsimp only at hclone
  split at hclone
  · cases hclone
  rename_i w2 outerFinal hphase
  obtain ⟨hextQ, hpresQ, hdomQ, hnidQ, houterQ⟩ :=
    cloneAssocsPhase_facts _ _ _ _ w.nextId w2 outerFinal hdomP hnidP
      (fun p hp => by
        obtain ⟨a, b, cr⟩ := houterP p hp
        exact ⟨a, b, [], cr, by simp⟩) hphase
  obtain ⟨hextM, hpresM, hdomM, hnidM, hmmrefM, hreadM⟩ :=
    allocModelsMap_facts w2
      (cloneModelsPhase w ((heapGet w.modelsMapHeap src.modelsRef).getD [])).2.1
      hdomQ
  obtain ⟨hextO, hpresO, hdomO, hnidO, horefO, hreadO⟩ :=
    allocOuter_facts
      (w2.allocModelsMap
        (cloneModelsPhase w
          ((heapGet w.modelsMapHeap src.modelsRef).getD [])).2.1).1
      outerFinal hdomM
  injection hclone with h1
  injection h1 with ha hb
  subst ha
  subst hb
  dsimp only [World.allocModelsMap, World.allocOuter]
  have hw2 : w.nextId ≤ w2.nextId := le_trans hnidP hnidQ
  refine ⟨?_, ?_, ?_, ⟨hw2, ?_⟩, ⟨?_, ?_⟩, ?_, ?_, ?_⟩
  · exact extends_trans (extends_trans (extends_trans hextP hextQ) hextM) hextO
  · exact hdomO
  · dsimp only
    omega
  · dsimp only
    omega
  · dsimp only
    omega
  · dsimp only
    omega
  · intro r hr
    unfold modelRefsOf heapGet at hr
    dsimp only at hr
    rw [alook_append_fresh _ _ _ (fresh_not_mem hdomQ.2.2.1)] at hr
    dsimp only [Option.getD_some] at hr
    obtain ⟨h1, h2⟩ := hmmP r hr
    exact ⟨h1, by omega⟩
  · intro r hr
    unfold innerRefsOf heapGet at hr
    dsimp only at hr
    rw [alook_append_fresh _ _ _ (fresh_not_mem (dom_lt_succ hdomQ.2.2.2.1))] at hr
    dsimp only [Option.getD_some] at hr
    obtain ⟨p, hp, hpr⟩ := List.mem_map.1 hr
    obtain ⟨h1, h2, _⟩ := houterQ p hp
    rw [← hpr]
    exact ⟨h1, by omega⟩
  · intro r hr
    unfold assocRefsOf heapGet at hr
    dsimp only at hr
    rw [alook_append_fresh _ _ _ (fresh_not_mem (dom_lt_succ hdomQ.2.2.2.1))] at hr
    dsimp only [Option.getD_some] at hr
    rw [List.mem_flatten] at hr
    obtain ⟨s1, hs1, hrs⟩ := hr
    obtain ⟨e, he, hes⟩ := List.mem_map.1 hs1
    obtain ⟨h1, h2, content, hc1, hc2⟩ := houterQ e he
    unfold heapGet at hc1
    rw [← hes, hc1] at hrs
    dsimp only [Option.getD_some] at hrs
    obtain ⟨h3, h4⟩ := hc2 r hrs
    exact ⟨h3, by omega⟩


theorem readModels_congr (w w' : World) (md : Modeler)
    (hmm : heapGet w'.modelsMapHeap md.modelsRef =
      heapGet w.modelsMapHeap md.modelsRef)
    (hmodel : ∀ r ∈ modelRefsOf w md,
      heapGet w'.modelHeap r = heapGet w.modelHeap r) :
    readModels w' md = readModels w md := by
  unfold readModels
  rw [hmm]
  refine List.map_congr_left ?_
  intro e he
  have h := hmodel e.2 (by unfold modelRefsOf; exact List.mem_map.2 ⟨e, he, rfl⟩)
  show (e.1, heapGet w'.modelHeap e.2) = (e.1, heapGet w.modelHeap e.2)
  rw [h]

theorem readAssocs_congr (w w' : World) (md : Modeler)
    (houter : heapGet w'.outerMapHeap md.assocsRef =
      heapGet w.outerMapHeap md.assocsRef)
    (hinner : ∀ r ∈ innerRefsOf w md,
      heapGet w'.innerMapHeap r = heapGet w.innerMapHeap r)
    (hassoc : ∀ r ∈ assocRefsOf w md,
      heapGet w'.assocHeap r = heapGet w.assocHeap r) :
    readAssocs w' md = readAssocs w md := by
  unfold readAssocs
  rw [houter]
  refine List.map_congr_left ?_
  intro e he
  have hi := hinner e.2 (by unfold innerRefsOf; exact List.mem_map.2 ⟨e, he, rfl⟩)
  show (e.1, _) = (e.1, _)
  rw [hi]
  refine congrArg (Prod.mk e.1) ?_
  refine List.map_congr_left ?_
  intro a ha
  have hmem : a.2 ∈ assocRefsOf w md := by
    unfold assocRefsOf
    rw [List.mem_flatten]
    exact ⟨((heapGet w.innerMapHeap e.2).getD []).map Prod.snd,
      List.mem_map.2 ⟨e, he, rfl⟩, List.mem_map.2 ⟨a, ha, rfl⟩⟩
  show (a.1, heapGet w'.assocHeap a.2) = (a.1, heapGet w.assocHeap a.2)
  rw [hassoc a.2 hmem]

theorem refsOf_extends (w w' : World) (md : Modeler) (hext : Extends w w')
    (h1 : md.modelsRef < w.nextId) (h2 : md.assocsRef < w.nextId)
    (hin : ∀ r ∈ innerRefsOf w md, r < w.nextId) :
    modelRefsOf w' md = modelRefsOf w md ∧
    innerRefsOf w' md = innerRefsOf w md ∧
    assocRefsOf w' md = assocRefsOf w md := by
  refine ⟨?_, ?_, ?_⟩
  · unfold modelRefsOf
    rw [hext.2.2.2.1 md.modelsRef h1]
  · unfold innerRefsOf
    rw [hext.2.2.2.2.1 md.assocsRef h2]
  · unfold assocRefsOf
    rw [hext.2.2.2.2.1 md.assocsRef h2]
    refine congrArg List.flatten ?_
    refine List.map_congr_left ?_
    intro e he
    rw [hext.2.2.2.2.2 e.2
      (hin e.2 (by unfold innerRefsOf; exact List.mem_map.2 ⟨e, he, rfl⟩))]

theorem readModels_extends (w w' : World) (md : Modeler) (hext : Extends w w')
    (h1 : md.modelsRef < w.nextId) (hm : ∀ r ∈ modelRefsOf w md, r < w.nextId) :
    readModels w' md = readModels w md :=
  readModels_congr w w' md (hext.2.2.2.1 md.modelsRef h1)
    (fun r hr => hext.2.1 r (hm r hr))

theorem readAssocs_extends (w w' : World) (md : Modeler) (hext : Extends w w')
    (h2 : md.assocsRef < w.nextId) (hin : ∀ r ∈ innerRefsOf w md, r < w.nextId)
    (has : ∀ r ∈ assocRefsOf w md, r < w.nextId) :
    readAssocs w' md = readAssocs w md :=
  readAssocs_congr w w' md (hext.2.2.2.2.1 md.assocsRef h2)
    (fun r hr => hext.2.2.2.2.2 r (hin r hr))
    (fun r hr => hext.2.2.1 r (has r hr))


theorem addModelOp_frame (w : World) (md other : Modeler) (name : String)
    (attrs : List AttrDecl) (pk? : Option String)
    (h1 : other.modelsRef ≠ md.modelsRef) (h2 : other.assocsRef ≠ md.assocsRef)
    (h3 : ∀ r ∈ modelRefsOf w other, r < w.nextId)
    (h4 : ∀ r ∈ innerRefsOf w other, r < w.nextId) :
    readModels (addModelOp w md name attrs pk?) other = readModels w other ∧
    readAssocs (addModelOp w md name attrs pk?) other = readAssocs w other := by
  unfold addModelOp
  dsimp only
  by_cases hdup :
      (alook ((heapGet w.modelsMapHeap md.modelsRef).getD []) name).isSome = true
  · rw [if_pos hdup]
    exact ⟨rfl, rfl⟩
  · rw [if_neg hdup]
    dsimp only [World.allocModel, World.allocInner]
    constructor
    · refine readModels_congr _ _ _ ?_ ?_
      · show alook (mapSet w.modelsMapHeap md.modelsRef _) other.modelsRef = _
        rw [alook_mapSet, if_neg h1]
        rfl
      · intro r hr
        show alook (w.modelHeap ++ [(w.nextId, _)]) r = _
        exact alook_append_single_ne _ _ _ _ (Nat.ne_of_lt (h3 r hr))
    · refine readAssocs_congr _ _ _ ?_ ?_ ?_
      · show alook (mapSet w.outerMapHeap md.assocsRef _) other.assocsRef = _
        rw [alook_mapSet, if_neg h2]
        rfl
      · intro r hr
        show alook (w.innerMapHeap ++ [(w.nextId + 1, [])]) r = _
        exact alook_append_single_ne _ _ _ _
          (Nat.ne_of_lt (lt_trans (h4 r hr) (Nat.lt_succ_self _)))
      · intro r hr
        rfl

theorem associatePushOp_frame (w : World) (md other : Modeler) (src : String)
    (a : AssocR)
    (h2 : other.assocsRef ≠ md.assocsRef)
    (h4 : ∀ r ∈ innerRefsOf w other, r < w.nextId)
    (h5 : ∀ r ∈ assocRefsOf w other, r < w.nextId)
    (hdisj : ∀ r ∈ innerRefsOf w md, r ∉ innerRefsOf w other) :
    readModels (associatePushOp w md src a) other = readModels w other ∧
    readAssocs (associatePushOp w md src a) other = readAssocs w other := by
  unfold associatePushOp
  dsimp only
  rcases houter2 : alook ((heapGet w.outerMapHeap md.assocsRef).getD []) src
      with _ | iref
  · dsimp only [World.allocInner, World.allocAssoc]
    constructor
    · rfl
    · refine readAssocs_congr _ _ _ ?_ ?_ ?_
      · show alook (mapSet w.outerMapHeap md.assocsRef _) other.assocsRef = _
        rw [alook_mapSet, if_neg h2]
        rfl
      · intro r hr
        show alook (mapSet (w.innerMapHeap ++ [(w.nextId, [])]) w.nextId _) r = _
        rw [alook_mapSet, if_neg (Nat.ne_of_lt (h4 r hr))]
        exact alook_append_single_ne _ _ _ _ (Nat.ne_of_lt (h4 r hr))
      · intro r hr
        show alook (w.assocHeap ++ [(w.nextId + 1, a)]) r = _
        exact alook_append_single_ne _ _ _ _
          (Nat.ne_of_lt (lt_trans (h5 r hr) (Nat.lt_succ_self _)))
  · dsimp only
    have hirefmd : iref ∈ innerRefsOf w md := by
      unfold innerRefsOf
      exact List.mem_map.2 ⟨(src, iref), mem_of_alook_some houter2, rfl⟩
    by_cases hdup :
        (alook ((heapGet w.innerMapHeap iref).getD []) a.as).isSome = true
    · rw [if_pos hdup]
      exact ⟨rfl, rfl⟩
    · rw [if_neg hdup]
      dsimp only [World.allocAssoc]
      constructor
      · rfl
      · refine readAssocs_congr _ _ _ ?_ ?_ ?_
        · rfl
        · intro r hr
          have hne : r ≠ iref := fun heq => hdisj iref hirefmd (heq ▸ hr)
          show alook (mapSet w.innerMapHeap iref _) r = _
          rw [alook_mapSet, if_neg hne]
          rfl
        · intro r hr
          show alook (w.assocHeap ++ [(w.nextId, a)]) r = _
          exact alook_append_single_ne _ _ _ _ (Nat.ne_of_lt (h5 r hr))


/-- C8: `new HydraModeler(original)` produces a fully independent deep copy. On a
well-formed object graph, a successful clone allocates only fresh instances:
the clone's top-level `_models` and `_associations` map references differ from
the source's, and every model instance, per-model association map, and
association instance reachable from the clone is disjoint from those reachable
from the source. Consequently mutation through the public API is independent in
both directions: registering a model or inserting an association on the source
leaves the clone's visible models and associations unchanged, and the same
operations on the clone leave the source's unchanged. -/
theorem clone_independent (w : World) (src : Modeler) (w' : World) (c : Modeler)
    (hdom : World.wfDom w) (hwf : Modeler.wf w src)
    (hclone : cloneOp w src = .ok (w', c)) :
    (c.modelsRef ≠ src.modelsRef ∧ c.assocsRef ≠ src.assocsRef ∧
     (∀ r ∈ modelRefsOf w' c, r ∉ modelRefsOf w' src) ∧
     (∀ r ∈ innerRefsOf w' c, r ∉ innerRefsOf w' src) ∧
     (∀ r ∈ assocRefsOf w' c, r ∉ assocRefsOf w' src)) ∧
    (∀ name attrs pk?,
      readModels (addModelOp w' src name attrs pk?) c = readModels w' c ∧
      readAssocs (addModelOp w' src name attrs pk?) c = readAssocs w' c) ∧
    (∀ s a,
      readModels (associatePushOp w' src s a) c = readModels w' c ∧
      readAssocs (associatePushOp w' src s a) c = readAssocs w' c) ∧
    (∀ name attrs pk?,
      readModels (addModelOp w' c name attrs pk?) src = readModels w' src ∧
      readAssocs (addModelOp w' c name attrs pk?) src = readAssocs w' src) ∧
    (∀ s a,
      readModels (associatePushOp w' c s a) src = readModels w' src ∧
      readAssocs (associatePushOp w' c s a) src = readAssocs w' src) := by
  obtain ⟨hsm, hsa, hsmR, hsiR, hsaR⟩ := hwf
  obtain ⟨hext, hdom2, hle, ⟨hcm1, hcm2⟩, ⟨hca1, hca2⟩, hcmR, hciR, hcaR⟩ :=
    cloneOp_facts w src w' c hdom hclone
  obtain ⟨heqM, heqI, heqA⟩ := refsOf_extends w w' src hext hsm hsa hsiR
  have hne1 : c.modelsRef ≠ src.modelsRef := by
    intro heq
    rw [heq] at hcm1
    omega
  have hne2 : c.assocsRef ≠ src.assocsRef := by
    intro heq
    rw [heq] at hca1
    omega
  have hdisj1 : ∀ r ∈ innerRefsOf w' src, r ∉ innerRefsOf w' c := by
    intro r hr hrc
    rw [heqI] at hr
    have := hsiR r hr
    have := (hciR r hrc).1
    omega
  have hdisj2 : ∀ r ∈ innerRefsOf w' c, r ∉ innerRefsOf w' src := by
    intro r hr hrs
    exact hdisj1 r hrs hr
  refine ⟨⟨hne1, hne2, ?_, hdisj2, ?_⟩, ?_, ?_, ?_, ?_⟩
  · intro r hr hrs
    rw [heqM] at hrs
    have := hsmR r hrs
    have := (hcmR r hr).1
    omega
  · intro r hr hrs
    rw [heqA] at hrs
    have := hsaR r hrs
    have := (hcaR r hr).1
    omega
  · intro name attrs pk?
    exact addModelOp_frame w' src c name attrs pk? hne1 hne2
      (fun r hr => (hcmR r hr).2) (fun r hr => (hciR r hr).2)
  · intro s a
    exact associatePushOp_frame w' src c s a hne2
      (fun r hr => (hciR r hr).2) (fun r hr => (hcaR r hr).2) hdisj1
  · intro name attrs pk?
    refine addModelOp_frame w' c src name attrs pk? (Ne.symm hne1) (Ne.symm hne2)
      ?_ ?_
    · intro r hr
      rw [heqM] at hr
      exact lt_of_lt_of_le (hsmR r hr) hle
    · intro r hr
      rw [heqI] at hr
      exact lt_of_lt_of_le (hsiR r hr) hle
  · intro s a
    refine associatePushOp_frame w' c src s a (Ne.symm hne2) ?_ ?_ hdisj2
    · intro r hr
      rw [heqI] at hr
      exact lt_of_lt_of_le (hsiR r hr) hle
    · intro r hr
      rw [heqA] at hr
      exact lt_of_lt_of_le (hsaR r hr) hle


theorem clone_independent_witness :
    (cCloneW.modelsRef ≠ srcCloneW.modelsRef ∧
     cCloneW.assocsRef ≠ srcCloneW.assocsRef ∧
     (∀ r ∈ modelRefsOf wCloneW' cCloneW, r ∉ modelRefsOf wCloneW' srcCloneW) ∧
     (∀ r ∈ innerRefsOf wCloneW' cCloneW, r ∉ innerRefsOf wCloneW' srcCloneW) ∧
     (∀ r ∈ assocRefsOf wCloneW' cCloneW, r ∉ assocRefsOf wCloneW' srcCloneW)) ∧
    (∀ name attrs pk?,
      readModels (addModelOp wCloneW' srcCloneW name attrs pk?) cCloneW =
        readModels wCloneW' cCloneW ∧
      readAssocs (addModelOp wCloneW' srcCloneW name attrs pk?) cCloneW =
        readAssocs wCloneW' cCloneW) ∧
    (∀ s a,
      readModels (associatePushOp wCloneW' srcCloneW s a) cCloneW =
        readModels wCloneW' cCloneW ∧
      readAssocs (associatePushOp wCloneW' srcCloneW s a) cCloneW =
        readAssocs wCloneW' cCloneW) ∧
    (∀ name attrs pk?,
      readModels (addModelOp wCloneW' cCloneW name attrs pk?) srcCloneW =
        readModels wCloneW' srcCloneW ∧
      readAssocs (addModelOp wCloneW' cCloneW name attrs pk?) srcCloneW =
        readAssocs wCloneW' srcCloneW) ∧
    (∀ s a,
      readModels (associatePushOp wCloneW' cCloneW s a) srcCloneW =
        readModels wCloneW' srcCloneW ∧
      readAssocs (associatePushOp wCloneW' cCloneW s a) srcCloneW =
        readAssocs wCloneW' srcCloneW) :=
  clone_independent wCloneW srcCloneW wCloneW' cCloneW
    (by unfold World.wfDom; refine ⟨?_, ?_, ?_, ?_, ?_⟩ <;> decide)
    (by unfold Modeler.wf; refine ⟨?_, ?_, ?_, ?_, ?_⟩ <;> decide)
    (by with_unfolding_all rfl)

end Hydra.RefW
